import Mathlib

/-!
Verification of the LenkoStudio translation-sync and page-generation pipeline.

This file shallowly embeds the Python scripts `scripts/sync_translations.py`
and `scripts/generate_i18n_all.py`:

* Python strings are Lean `String` / `List Char`; Python whitespace tests
  (`str.strip`, the regex class `\s`) use `isPySpace`.
* Python `dict` objects whose iteration order matters are modelled as
  association lists; `updA` is `d[k] = v` (replace in place, keeping the
  original position of the key), `lookupA` is `d.get(k)`.
* The `html.parser.HTMLParser` callback stream is modelled by `HtmlEvent`:
  a parsed HTML document is its sequence of start-tag / end-tag / data /
  self-closing-tag events.  The repository's `IDExtractor` subclass is
  embedded as a fold over that event stream.
* Fallible Python code (statements that can raise) returns `Except`.
* `csv.DictWriter` / `csv.DictReader` (excel dialect, `QUOTE_MINIMAL`,
  `\r\n` line terminator) are embedded as `serCsvFile` / `parseRecords`.
-/

set_option autoImplicit false

deriving instance DecidableEq for Except

namespace LenkoStudio

/-! ### Python string helpers -/

/-- Python's whitespace class (ASCII part): the characters matched by the
regex `\s` and stripped by `str.strip()`. -/
def isPySpace (c : Char) : Bool := c.isWhitespace || c = '\x0b' || c = '\x0c'

/-- `str.strip()` on a character list. -/
def pyStripL (l : List Char) : List Char :=
  ((l.dropWhile isPySpace).reverse.dropWhile isPySpace).reverse

/-- `str.strip()`. -/
def pyStrip (s : String) : String := ⟨pyStripL s.data⟩

/-- `re.sub(r'\s+', ' ', ·)`: collapse every whitespace run to one space.
(Structured by lookahead: a whitespace character followed by more
whitespace is dropped, so each maximal run contributes exactly one
space, emitted at the run's last character.) -/
def collapseWsL : List Char → List Char
  | [] => []
  | [c] => if isPySpace c then [' '] else [c]
  | c :: c' :: cs =>
    if isPySpace c then
      if isPySpace c' then collapseWsL (c' :: cs) else ' ' :: collapseWsL (c' :: cs)
    else c :: collapseWsL (c' :: cs)

/-- `re.sub(r'\s+', ' ', s).strip()`: the extractor's text normalization. -/
def pyNormalize (s : String) : String := pyStrip ⟨collapseWsL s.data⟩

/-! ### Python dict model (insertion-ordered association lists) -/

/-- `d[k] = v` on a Python dict: overwrite in place if the key exists
(keeping its position), else append. -/
def updA {α : Type} (k : String) (v : α) : List (String × α) → List (String × α)
  | [] => [(k, v)]
  | (k', v') :: rest => if k' = k then (k, v) :: rest else (k', v') :: updA k v rest

/-- `d.get(k)` on a Python dict. -/
def lookupA {α : Type} (l : List (String × α)) (k : String) : Option α :=
  (l.find? (fun p => p.1 = k)).map (·.2)

/-! ### `IDExtractor` (sync_translations.py lines 21-72) -/

/-- A value in `IDExtractor.elements`: either a still-raw list of captured
data fragments, or a joined (and, on the normal path, normalized) string. -/
inductive PyVal where
  | str (s : String)
  | lst (l : List String)
deriving DecidableEq

/-- One `html.parser` callback event of a parsed HTML document. -/
inductive HtmlEvent where
  | startTag (tag : String) (attrs : List (String × String))
  | endTag (tag : String)
  | data (text : String)
  | startEndTag (tag : String) (attrs : List (String × String))
deriving DecidableEq

/-- The mutable state of an `IDExtractor` instance. -/
structure ExtState where
  elements : List (String × PyVal)
  tags : List (String × String)
  currentId : Option String
  currentTag : Option String
  captureContent : Bool
deriving DecidableEq

def initExt : ExtState := ⟨[], [], none, none, false⟩

/-- `dict(attrs)[k]`: building a dict from a pair list lets later pairs
overwrite earlier ones, so lookup finds the last occurrence. -/
def dictGet (attrs : List (String × String)) (k : String) : Option String :=
  lookupA attrs.reverse k

/-- `IDExtractor.handle_starttag`. -/
def handleStartTag (st : ExtState) (tag : String) (attrs : List (String × String)) : ExtState :=
  match dictGet attrs "id" with
  | none => st
  | some eid =>
    { st with
      currentId := some eid
      currentTag := some tag
      captureContent := true
      elements := updA eid (.lst []) st.elements
      tags := updA eid tag st.tags }

/-- `''.join(v)`: joining a fragment list concatenates it; joining a string
(iterating its characters) returns the string itself. -/
def pyJoinChars : PyVal → String
  | .str s => s
  | .lst l => String.join l

/-- `IDExtractor.handle_endtag`.  The `captureContent → currentId` branch
with `currentId = none` is unreachable (capture is only switched on
together with an id); it leaves the state unchanged here. -/
def handleEndTag (st : ExtState) (tag : String) : ExtState :=
  if st.captureContent ∧ st.currentTag = some tag then
    match st.currentId with
    | some cid =>
      let v := (lookupA st.elements cid).getD (.lst [])
      let content := pyNormalize (pyJoinChars v)
      { st with
        elements := updA cid (.str content) st.elements
        captureContent := false
        currentId := none
        currentTag := none }
    | none => st
  else st

/-- `IDExtractor.handle_data`.  Python tests `self.current_id` for
truthiness, so a captured element whose id is the empty string collects no
data.  Appending to an entry that has already been joined to a string
raises `AttributeError` in Python. -/
def handleData (st : ExtState) (text : String) : Except String ExtState :=
  if st.captureContent then
    match st.currentId with
    | some cid =>
      if cid = "" then .ok st
      else
        match lookupA st.elements cid with
        | some (.lst l) => .ok { st with elements := updA cid (.lst (l ++ [text])) st.elements }
        | some (.str _) => .error "AttributeError: str object has no attribute append"
        | none => .error "KeyError"
    | none => .ok st
  else .ok st

/-- `IDExtractor.handle_startendtag`. -/
def handleStartEndTag (st : ExtState) (tag : String) (attrs : List (String × String)) : ExtState :=
  match dictGet attrs "id" with
  | none => st
  | some eid =>
    { st with
      elements := updA eid (.str "") st.elements
      tags := updA eid tag st.tags }

def feedEvent (st : ExtState) : HtmlEvent → Except String ExtState
  | .startTag t a => .ok (handleStartTag st t a)
  | .endTag t => .ok (handleEndTag st t)
  | .data d => handleData st d
  | .startEndTag t a => .ok (handleStartEndTag st t a)

/-- `HTMLParser.feed`: process the document's events in order. -/
def feedEvents : ExtState → List HtmlEvent → Except String ExtState
  | st, [] => .ok st
  | st, e :: es =>
    match feedEvent st e with
    | .ok st' => feedEvents st' es
    | .error m => .error m

/-- `extract_ids_from_html`: feed the document and return `parser.elements`. -/
def extract_ids_from_html (events : List HtmlEvent) : Except String (List (String × PyVal)) :=
  (feedEvents initExt events).map (·.elements)

/-! ### The translation Store (sync_translations.py lines 349-484) -/

/-- One row of the Store CSV (`fieldnames` order: page, address, status,
tag, id, en, es).  `en` is the spec's `source_text`, `es` its
`target_text`.  A `DictReader` row missing one of these columns behaves,
at every use site in the scripts, like the empty string. -/
@[ext]
structure StoreRow where
  page : String
  address : String
  status : String
  tag : String
  id : String
  en : String
  es : String
deriving DecidableEq

/-- `page_ids[page][id]`: the language-indexed content captured by
`scan_html_files` (`.get('en', '')` defaults to the empty string). -/
structure ScanContent where
  en : Option PyVal
  es : Option PyVal
deriving DecidableEq

/-- `scan_html_files`'s first result: `{page: {id: {en:…, es:…}}}`. -/
abbrev PageIds := List (String × List (String × ScanContent))

/-- `scan_html_files`'s second result: `{page: {id: tag_name}}`. -/
abbrev TagInfo := List (String × List (String × String))

/-- `load_existing_csv`'s result: `{id: row}`. -/
abbrev ExistingMap := List (String × StoreRow)

/-- `get_page_address(page, lang)`. -/
def get_page_address (page lang : String) : String :=
  if lang = "en" then "/" ++ page ++ ".html" else "/" ++ lang ++ "/" ++ page ++ ".html"

/-- The `isinstance(…, list)` conversion in `create_updated_csv`
(lines 390-393): a raw fragment list is joined with single spaces,
dropping empty fragments; a plain string passes through. -/
def pyJoinVal : PyVal → String
  | .str s => s
  | .lst l => String.intercalate " " (l.filter (fun s => s ≠ ""))

/-- `tag_info.get(page, {}).get(element_id, 'unknown')`. -/
def lookupTag (t : TagInfo) (pg i : String) : String :=
  match lookupA t pg with
  | none => "unknown"
  | some m => (lookupA m i).getD "unknown"

/-- Lines 401-406: `es` from the existing Store row when that row holds a
non-empty stored translation, else from the scanned alternate-language
page. -/
def pickEs (o : Option StoreRow) (scan : String) : String :=
  match o with
  | some er => if er.es ≠ "" then er.es else scan
  | none => scan

/-- Lines 411-415: page assignment from the existing Store row when it
has a non-empty one (stability), else the page being scanned. -/
def pickPage (o : Option StoreRow) (scan : String) : String :=
  match o with
  | some er => if er.page ≠ "" then er.page else scan
  | none => scan

/-- The candidate row `create_updated_csv` appends for one scanned
identifier (lines 385-427). -/
def buildRow (existing : ExistingMap) (t : TagInfo) (pg i : String) (c : ScanContent) : StoreRow :=
  let en_content := pyJoinVal ((c.en).getD (.str ""))
  let es_content := pickEs (lookupA existing i) (pyJoinVal ((c.es).getD (.str "")))
  let best_page := pickPage (lookupA existing i) pg
  { page := best_page
    address := get_page_address best_page "en"
    status := "active"
    tag := lookupTag t pg i
    id := i
    en := en_content
    es := es_content }

/-- The two nested loops of `create_updated_csv` iterate over the pages
and, per page, its identifiers — i.e. over this flattened list of
`(page, id, content)` triples, in order. -/
def flattenPages (p : PageIds) : List (String × String × ScanContent) :=
  p.flatMap (fun pg => pg.2.map (fun ic => (pg.1, ic.1, ic.2)))

/-- The loop body of `create_updated_csv`, threading `processed_ids`
(which is extended before the empty-content check, line 383). -/
def createGo (existing : ExistingMap) (t : TagInfo) :
    List (String × String × ScanContent) → List String → List StoreRow
  | [], _ => []
  | (pg, i, c) :: rest, processed =>
    if processed.contains i then createGo existing t rest processed
    else if pyStrip (pyJoinVal ((c.en).getD (.str ""))) = "" then
      createGo existing t rest (i :: processed)
    else
      buildRow existing t pg i c :: createGo existing t rest (i :: processed)

/-- `create_updated_csv(page_ids, tag_info, existing_data)`. -/
def create_updated_csv (p : PageIds) (t : TagInfo) (existing : ExistingMap) : List StoreRow :=
  createGo existing t (flattenPages p) []

/-- `id_score` from `write_csv` (lines 442-456), in the source's order:
−1000 for an underscore, +100 for a hyphen, −50 for neither, minus the
identifier's length. -/
def id_score (element_id : String) : Int :=
  (if element_id.data.contains '_' then -1000 else 0) +
    (if element_id.data.contains '-' then 100 else 0) +
    (if element_id.data.contains '-' || element_id.data.contains '_' then 0 else -50) -
    element_id.length

/-- The deduplication loop of `write_csv` (lines 458-477): `seen` is
`seen_text` (source text ↦ kept row), `acc` is `deduplicated_rows`. -/
def dedupGo : List (String × StoreRow) → List StoreRow → List StoreRow → List StoreRow
  | _, acc, [] => acc
  | seen, acc, row :: rest =>
    match lookupA seen row.en with
    | some er =>
      if id_score row.id > id_score er.id then
        dedupGo (updA row.en row seen) ((acc.filter (fun r => r.id ≠ er.id)) ++ [row]) rest
      else
        dedupGo seen acc rest
    | none => dedupGo (updA row.en row seen) (acc ++ [row]) rest

/-- The row list `write_csv` serializes after deduplication. -/
def write_csv_dedup (rows : List StoreRow) : List StoreRow := dedupGo [] [] rows

/-- Proof device (not part of the embedding): send each row of `l` to its
positional counterpart in `l'`, and anything else to itself. -/
def pairFn (l l' : List StoreRow) (r : StoreRow) : StoreRow :=
  (((l.zip l').find? (fun pr => pr.1 = r)).map (·.2)).getD r

/-- `main`'s `active_rows` filter (line 509). -/
def filterActive (rows : List StoreRow) : List StoreRow :=
  rows.filter (fun r => r.status = "active")

/-- The Store rows one `sync_translations.main` run persists, given the
scan results and the previously loaded Store. -/
def sync_rows (p : PageIds) (t : TagInfo) (existing : ExistingMap) : List StoreRow :=
  write_csv_dedup (filterActive (create_updated_csv p t existing))

/-! ### CSV serialization (`csv.DictWriter`, excel dialect, QUOTE_MINIMAL)

`write_csv` writes the header then one record per row, fields joined by
`,`, records terminated by `\r\n`; a field is quoted iff it contains a
delimiter, a quote or a line break, and quotes are escaped by doubling. -/

def fieldnames : List String := ["page", "address", "status", "tag", "id", "en", "es"]

def rowToFields (r : StoreRow) : List String :=
  [r.page, r.address, r.status, r.tag, r.id, r.en, r.es]

def needsQuote (s : String) : Bool :=
  s.data.any (fun c => c = ',' || c = '"' || c = '\r' || c = '\n')

def escQuotes : List Char → List Char
  | [] => []
  | c :: cs => if c = '"' then '"' :: '"' :: escQuotes cs else c :: escQuotes cs

def serField (s : String) : List Char :=
  if needsQuote s then '"' :: (escQuotes s.data ++ ['"']) else s.data

def joinFieldsSer : List String → List Char
  | [] => []
  | [f] => serField f
  | f :: f' :: fs => serField f ++ ',' :: joinFieldsSer (f' :: fs)

def serRecord (fs : List String) : List Char := joinFieldsSer fs ++ ['\r', '\n']

/-- The bytes `write_csv` puts in the output file: header record, then the
deduplicated rows. -/
def serCsvFile (rows : List StoreRow) : List Char :=
  serRecord fieldnames ++ (rows.map (fun r => serRecord (rowToFields r))).flatten

/-! ### CSV parsing (`csv.DictReader`, excel dialect)

A character-at-a-time state machine equivalent to the stdlib reader on
the dialect above: quoted fields may contain delimiters and line breaks,
`""` inside a quoted field is a literal quote, records end at `\r\n`,
`\n` or `\r`. -/

inductive CsvMode where
  | recStart | fieldStart | unquoted | quoted | afterQuote | sawCR
deriving DecidableEq

structure CsvSt where
  mode : CsvMode
  curF : List Char
  curR : List String
deriving DecidableEq

/-- Step for a character seen at the start of a field: `c` opens a quoted
field, ends an (empty) field or record, or starts an unquoted field.
`curR` holds the fields already completed in the current record. -/
def csvStepStart (curR : List String) (c : Char) : List (List String) × CsvSt :=
  if c = '"' then ([], ⟨.quoted, [], curR⟩)
  else if c = ',' then ([], ⟨.fieldStart, [], curR ++ [""]⟩)
  else if c = '\r' then ([curR ++ [""]], ⟨.sawCR, [], []⟩)
  else if c = '\n' then ([curR ++ [""]], ⟨.recStart, [], []⟩)
  else ([], ⟨.unquoted, [c], curR⟩)

/-- One character of CSV input: the records completed by this character,
and the next state.  In mode `recStart` a line break yields a blank
record (which `DictReader` skips); in mode `sawCR` a `\n` completes the
`\r\n` terminator, anything else is reprocessed as a record start. -/
def csvStep (st : CsvSt) (c : Char) : List (List String) × CsvSt :=
  match st.mode with
  | .recStart =>
    if c = '\r' then ([[]], ⟨.sawCR, [], []⟩)
    else if c = '\n' then ([[]], ⟨.recStart, [], []⟩)
    else csvStepStart st.curR c
  | .fieldStart => csvStepStart st.curR c
  | .unquoted =>
    if c = ',' then ([], ⟨.fieldStart, [], st.curR ++ [⟨st.curF⟩]⟩)
    else if c = '\r' then ([st.curR ++ [⟨st.curF⟩]], ⟨.sawCR, [], []⟩)
    else if c = '\n' then ([st.curR ++ [⟨st.curF⟩]], ⟨.recStart, [], []⟩)
    else ([], ⟨.unquoted, st.curF ++ [c], st.curR⟩)
  | .quoted =>
    if c = '"' then ([], ⟨.afterQuote, st.curF, st.curR⟩)
    else ([], ⟨.quoted, st.curF ++ [c], st.curR⟩)
  | .afterQuote =>
    if c = '"' then ([], ⟨.quoted, st.curF ++ ['"'], st.curR⟩)
    else if c = ',' then ([], ⟨.fieldStart, [], st.curR ++ [⟨st.curF⟩]⟩)
    else if c = '\r' then ([st.curR ++ [⟨st.curF⟩]], ⟨.sawCR, [], []⟩)
    else if c = '\n' then ([st.curR ++ [⟨st.curF⟩]], ⟨.recStart, [], []⟩)
    else ([], ⟨.unquoted, st.curF ++ [c], st.curR⟩)
  | .sawCR =>
    if c = '\n' then ([], ⟨.recStart, [], []⟩)
    else if c = '\r' then ([[]], ⟨.sawCR, [], []⟩)
    else csvStepStart [] c

/-- End of input: a record in progress is emitted. -/
def csvFlush (st : CsvSt) : List (List String) :=
  match st.mode with
  | .recStart => []
  | .sawCR => []
  | _ => [st.curR ++ [⟨st.curF⟩]]

def csvRunFold : CsvSt → List Char → List (List String)
  | st, [] => csvFlush st
  | st, c :: rest =>
    (csvStep st c).1 ++ csvRunFold (csvStep st c).2 rest

/-- `csv.reader` over a whole file's characters. -/
def parseRecords (s : List Char) : List (List String) :=
  csvRunFold ⟨.recStart, [], []⟩ s

/-- Proof device: the records emitted and state reached after consuming a
prefix of the input (no end-of-input flush). -/
def csvConsume : CsvSt → List Char → List (List String) × CsvSt
  | st, [] => ([], st)
  | st, c :: rest =>
    ((csvStep st c).1 ++ (csvConsume (csvStep st c).2 rest).1,
      (csvConsume (csvStep st c).2 rest).2)

/-- One `DictReader` row: the header zipped with the record's fields;
a missing column behaves as the empty string at every use site. -/
def rowFromRecord (header fields : List String) : StoreRow :=
  { page := (lookupA (header.zip fields) "page").getD ""
    address := (lookupA (header.zip fields) "address").getD ""
    status := (lookupA (header.zip fields) "status").getD ""
    tag := (lookupA (header.zip fields) "tag").getD ""
    id := (lookupA (header.zip fields) "id").getD ""
    en := (lookupA (header.zip fields) "en").getD ""
    es := (lookupA (header.zip fields) "es").getD "" }

/-- The loop of `load_existing_csv`: `existing[id] = row` for every row
with a non-empty id. -/
def loadExistingGo (header : List String) : ExistingMap → List (List String) → ExistingMap
  | ex, [] => ex
  | ex, fields :: rest =>
    let r := rowFromRecord header fields
    if r.id = "" then loadExistingGo header ex rest
    else loadExistingGo header (updA r.id r ex) rest

/-- `load_existing_csv` on the Store file's contents (an absent file is
the empty map, like an empty parse). -/
def load_existing_csv (file : List Char) : ExistingMap :=
  match parseRecords file with
  | [] => []
  | header :: rest => loadExistingGo header [] rest

/-- One full `sync_translations.main` run: scan results in, Store file
bytes out (`create_updated_csv`, the `active` filter, `write_csv`). -/
def sync_output_file (p : PageIds) (t : TagInfo) (existing : ExistingMap) : List Char :=
  serCsvFile (sync_rows p t existing)

/-! ### `re` on the generator's fixed patterns (generate_i18n_all.py)

The generator only ever uses `re.search`/`re.sub` on patterns built from
literals, the classes `[^>]*`, `[^"]*`, `[^"]+`, `\s*`, `\s+`, a lazy
`.*?` ending at a literal, and small alternations of literals.  Each
pattern is hand-compiled to a matcher `List Char → Option (Nat × List Char)`
returning the match length at the current position and its replacement.
`reSub` is `re.sub`'s left-to-right scan over all non-overlapping
matches; `reSearch` is `re.search`'s existence test.  Greedy classes
followed by their excluded terminator, and `\s*`/`\s+` followed by a
literal starting with a non-space character, match deterministically;
`\s*` followed by an arbitrary literal backtracks greedily. -/

/-- First index at which `lit` occurs in `s` (how a lazy `.*?` before the
literal `lit` extends). -/
def findLit (lit : List Char) : List Char → Option Nat
  | [] => if lit = [] then some 0 else none
  | c :: rest =>
    if lit.isPrefixOf (c :: rest) then some 0
    else (findLit lit rest).map (· + 1)

/-- `lit in s` (Python substring test). -/
def containsL (s lit : List Char) : Bool := (findLit lit s).isSome

/-- Strip a literal prefix. -/
def dropPfx? (lit s : List Char) : Option (List Char) :=
  if lit.isPrefixOf s then some (s.drop lit.length) else none

/-- Case-insensitive `isPrefixOf` (for `re.IGNORECASE`). -/
def ciPrefixOf : List Char → List Char → Bool
  | [], _ => true
  | _ :: _, [] => false
  | a :: as, b :: bs => (a.toLower = b.toLower) && ciPrefixOf as bs

def firstSome {α β : Type} (f : α → Option β) : List α → Option β
  | [] => none
  | a :: as =>
    match f a with
    | some b => some b
    | none => firstSome f as

/-- `\s*` followed by the single character `c` (deterministic: `c` is
never a whitespace character at the call sites): length consumed. -/
def tailWsChar (c : Char) (s : List Char) : Option Nat :=
  match s.drop (s.takeWhile isPySpace).length with
  | c' :: _ => if c' = c then some ((s.takeWhile isPySpace).length + 1) else none
  | [] => none

/-- `\s*` followed by a literal of length `n` (recognized by `pfx`, which
is `isPrefixOf` or its case-insensitive variant) followed by `tail`,
with the greedy backtracking of `\s*`: the longest whitespace prefix
whose continuation matches wins. -/
def greedyWsThen (pfx : List Char → Bool) (n : Nat) (tail : List Char → Option Nat)
    (s : List Char) : Option Nat :=
  firstSome
    (fun k =>
      if pfx (s.drop k) then
        (tail (s.drop (k + n))).map (fun m => k + n + m)
      else none)
    ((List.range ((s.takeWhile isPySpace).length + 1)).reverse)

/-- `\s+` followed by a literal starting with a non-space character
(deterministic): length consumed. -/
def wsPlusLit (lit : List Char) (s : List Char) : Option Nat :=
  if (s.takeWhile isPySpace).length = 0 then none
  else if lit.isPrefixOf (s.drop (s.takeWhile isPySpace).length) then
    some ((s.takeWhile isPySpace).length + lit.length)
  else none

/-- `\s*` followed by a literal starting with a non-space character
(deterministic): length consumed. -/
def wsStarLit (lit : List Char) (s : List Char) : Option Nat :=
  if lit.isPrefixOf (s.drop (s.takeWhile isPySpace).length) then
    some ((s.takeWhile isPySpace).length + lit.length)
  else none

/-- A greedy class run (all characters satisfying `p`) followed by the
single character `c` excluded by the class (deterministic): consumed
length and the captured run. -/
def clsThenChar (p : Char → Bool) (c : Char) (s : List Char) : Option (Nat × List Char) :=
  match s.drop (s.takeWhile p).length with
  | c' :: _ => if c' = c then some ((s.takeWhile p).length + 1, s.takeWhile p) else none
  | [] => none

/-- `re.sub` scan with fuel (one unit per input character; a match always
consumes at least one character here since every pattern contains a
literal, so `length + 1` fuel suffices). -/
def scanSubGo (m : List Char → Option (Nat × List Char)) : Nat → List Char → List Char
  | 0, s => s
  | _ + 1, [] =>
    match m [] with
    | some (_, r) => r
    | none => []
  | fuel + 1, c :: rest =>
    match m (c :: rest) with
    | some (n + 1, repl) => repl ++ scanSubGo m fuel (rest.drop n)
    | _ => c :: scanSubGo m fuel rest

/-- `re.sub(pattern, repl, s)` for a hand-compiled matcher. -/
def reSub (m : List Char → Option (Nat × List Char)) (s : List Char) : List Char :=
  scanSubGo m (s.length + 1) s

/-- `re.search(pattern, s) is not None`. -/
def reSearch (m : List Char → Option (Nat × List Char)) : List Char → Bool
  | [] => (m []).isSome
  | c :: rest => (m (c :: rest)).isSome || reSearch m rest

/-- A bare literal pattern (no metacharacters). -/
def litMatcher (pat repl : List Char) (s : List Char) : Option (Nat × List Char) :=
  if pat = [] then none
  else if pat.isPrefixOf s then some (pat.length, repl) else none

/-! ### `translate_content` (generate_i18n_all.py lines 165-212) -/

/-- Strategy 1's pattern
`id="EID"([^>]*)>\s*EN\s*<` with replacement `id="EID"\1>TGT<`. -/
def p1Matcher (eid en tgt : List Char) (s : List Char) : Option (Nat × List Char) :=
  match dropPfx? ('i' :: 'd' :: '=' :: '"' :: (eid ++ ['"'])) s with
  | none => none
  | some s1 =>
    match s1.drop (s1.takeWhile (· ≠ '>')).length with
    | '>' :: s3 =>
      match greedyWsThen (en.isPrefixOf ·) en.length (tailWsChar '<') s3 with
      | some m =>
        some
          (4 + eid.length + 1 + (s1.takeWhile (· ≠ '>')).length + 1 + m,
            'i' :: 'd' :: '=' :: '"' :: (eid ++ '"' :: (s1.takeWhile (· ≠ '>')) ++
              '>' :: tgt ++ ['<']))
      | none => none
    | _ => none

/-- Strategy 2's text fallback `(>)\s*EN\s*(<)` with replacement `\1TGT\2`. -/
def p2Matcher (en tgt : List Char) (s : List Char) : Option (Nat × List Char) :=
  match s with
  | '>' :: s1 =>
    (greedyWsThen (en.isPrefixOf ·) en.length (tailWsChar '<') s1).map
      (fun m => (1 + m, '>' :: tgt ++ ['<']))
  | _ => none

/-- Strategy 2's attribute fallback
`(placeholder|title|aria-label)="\s*EN\s*"` (IGNORECASE) with
replacement `\1="TGT"`. -/
def p3Matcher (en tgt : List Char) (s : List Char) : Option (Nat × List Char) :=
  firstSome
    (fun attr =>
      if ciPrefixOf attr s then
        if ['=', '"'].isPrefixOf (s.drop attr.length) then
          (greedyWsThen (ciPrefixOf en) en.length (tailWsChar '"')
              (s.drop (attr.length + 2))).map
            (fun m =>
              (attr.length + 2 + m,
                s.take attr.length ++ '=' :: '"' :: tgt ++ ['"']))
        else none
      else none)
    ["placeholder".data, "title".data, "aria-label".data]

/-- The `{lang: {id: text}}` dict `load_translations_csv` returns. -/
structure TransT where
  en : List (String × String)
  es : List (String × String)
deriving DecidableEq

/-- `csv_translations.get(lang, {})`. -/
def getTransLang (t : TransT) (lang : String) : List (String × String) :=
  if lang = "en" then t.en else if lang = "es" then t.es else []

/-- One iteration of `translate_content`'s row loop for the entry
`(element_id, target_text)`: skip if there is no (or an empty) English
text or the texts coincide; else strategy 1 if its pattern occurs
anywhere, otherwise both strategy-2 substitutions. -/
def processRow (enMap : List (String × String)) (html : List Char)
    (entry : String × String) : List Char :=
  match lookupA enMap entry.1 with
  | none => html
  | some en =>
    if en = "" ∨ en = entry.2 then html
    else if reSearch (p1Matcher entry.1.data en.data entry.2.data) html then
      reSub (p1Matcher entry.1.data en.data entry.2.data) html
    else
      reSub (p3Matcher en.data entry.2.data)
        (reSub (p2Matcher en.data entry.2.data) html)

/-- `translate_content(html, lang, csv_translations)`. -/
def translate_content (html : List Char) (lang : String) (csvT : TransT) : List Char :=
  if lang = "en" then html
  else (getTransLang csvT lang).foldl (processRow csvT.en) html

/-! ### The metadata transforms (generate_i18n_all.py lines 53-162) -/

/-- The per-language metadata table `i18n/{lang}.json`, restricted to the
keys the generator reads (`t['site']['title']`, `t['about']['title']`, …;
a well-formed table has them all). -/
structure Meta where
  siteTitle : String
  aboutTitle : String
  contactTitle : String
  portfolioTitle : String
  metaProjectTitle : String
  metaDescription : String
  metaAboutDescription : String
  metaContactDescription : String
  metaPortfolioDescription : String
deriving DecidableEq

/-- `title_map.get(page_name, t['site']['title'])`. -/
def titleFor (t : Meta) (page : String) : String :=
  if page = "index" then t.siteTitle
  else if page = "about" then t.aboutTitle
  else if page = "contact" then t.contactTitle
  else if page = "portfolio" then t.portfolioTitle
  else if page = "project" then t.siteTitle ++ " — " ++ t.metaProjectTitle
  else t.siteTitle

/-- `desc_map.get(page_name, t['meta']['description'])`. -/
def descFor (t : Meta) (page : String) : String :=
  if page = "index" then t.metaDescription
  else if page = "about" then t.metaAboutDescription
  else if page = "contact" then t.metaContactDescription
  else if page = "portfolio" then t.metaPortfolioDescription
  else if page = "project" then t.metaDescription
  else t.metaDescription

/-- `<title>.*?</title>` (DOTALL, lazy) with replacement
`<title>TITLE</title>`. -/
def titleMatcher (title : List Char) (s : List Char) : Option (Nat × List Char) :=
  match dropPfx? "<title>".data s with
  | none => none
  | some s1 =>
    (findLit "</title>".data s1).map
      (fun k => (7 + k + 8, "<title>".data ++ title ++ "</title>".data))

/-- `<meta\s+name="description"\s+content="[^"]*"` with replacement
`<meta name="description" content="DESC"`. -/
def descMatcher (desc : List Char) (s : List Char) : Option (Nat × List Char) :=
  match dropPfx? "<meta".data s with
  | none => none
  | some s1 =>
    match wsPlusLit "name=\"description\"".data s1 with
    | none => none
    | some n1 =>
      match wsPlusLit "content=\"".data (s1.drop n1) with
      | none => none
      | some n2 =>
        (clsThenChar (· ≠ '"') '"' (s1.drop (n1 + n2))).map
          (fun pr =>
            (5 + n1 + n2 + pr.1,
              "<meta name=\"description\" content=\"".data ++ desc ++ ['"']))

/-- `translate_html_attributes(html, lang, t, page_name)`. -/
def translate_html_attributes (html : List Char) (lang : String) (t : Meta)
    (page : String) : List Char :=
  let h1 := reSub (litMatcher "<html lang=\"en\">".data
    ("<html lang=\"".data ++ lang.data ++ "\">".data)) html
  let h2 := reSub (titleMatcher (titleFor t page).data) h1
  reSub (descMatcher (descFor t page).data) h2

/-- The hreflang block inserted after the viewport meta tag. -/
def hreflangTags (page : String) : List Char :=
  ("\n    <!-- Alternate language versions for SEO -->\n    <link rel=\"alternate\" hreflang=\"en\" href=\"" ++
    page ++ ".html\" />\n    <link rel=\"alternate\" hreflang=\"es\" href=\"es/" ++
    page ++ ".html\" />\n    <link rel=\"alternate\" hreflang=\"x-default\" href=\"" ++
    page ++ ".html\" />\n").data

/-- `\s*<link rel="alternate"[^>]*>`: one old hreflang link. -/
def oldLinkPart (s : List Char) : Option Nat :=
  match wsStarLit "<link rel=\"alternate\"".data s with
  | none => none
  | some n =>
    (clsThenChar (· ≠ '>') '>' (s.drop n)).map (fun pr => n + pr.1)

/-- The removal pattern of `add_hreflang_tags`:
`<!--\s*Alternate language versions.*?-->` followed by three old links
(DOTALL), replaced by nothing. -/
def oldHreflangMatcher (s : List Char) : Option (Nat × List Char) :=
  match dropPfx? "<!--".data s with
  | none => none
  | some s1 =>
    match wsStarLit "Alternate language versions".data s1 with
    | none => none
    | some n1 =>
      match findLit "-->".data (s1.drop n1) with
      | none => none
      | some k =>
        match oldLinkPart (s1.drop (n1 + k + 3)) with
        | none => none
        | some m1 =>
          match oldLinkPart (s1.drop (n1 + k + 3 + m1)) with
          | none => none
          | some m2 =>
            (oldLinkPart (s1.drop (n1 + k + 3 + m1 + m2))).map
              (fun m3 => (4 + n1 + k + 3 + m1 + m2 + m3, []))

/-- `(<meta\s+name="viewport"[^>]*>)` with replacement `\1` + tags. -/
def viewportMatcher (tags : List Char) (s : List Char) : Option (Nat × List Char) :=
  match dropPfx? "<meta".data s with
  | none => none
  | some s1 =>
    match wsPlusLit "name=\"viewport\"".data s1 with
    | none => none
    | some n1 =>
      (clsThenChar (· ≠ '>') '>' (s1.drop n1)).map
        (fun pr => (5 + n1 + pr.1, s.take (5 + n1 + pr.1) ++ tags))

/-- `add_hreflang_tags(html, page_name, is_default)`. -/
def add_hreflang_tags (html : List Char) (page : String) : List Char :=
  reSub (viewportMatcher (hreflangTags page)) (reSub oldHreflangMatcher html)

/-- One alternation branch `BR[^"]*"` (or with `+`): consumed length from
after the opening quote and the captured group `BR ++ run`. -/
def clsGroupQuote (br : List Char) (minLen : Nat) (s1 : List Char) : Option (Nat × List Char) :=
  match dropPfx? br s1 with
  | none => none
  | some s2 =>
    if (s2.takeWhile (· ≠ '"')).length < minLen then none
    else
      match s2.drop (s2.takeWhile (· ≠ '"')).length with
      | '"' :: _ =>
        some (br.length + (s2.takeWhile (· ≠ '"')).length + 1,
          br ++ s2.takeWhile (· ≠ '"'))
      | _ => none

/-- `href="(style\.css[^"]*|css/[^"]*)"` → `href="../\1"`. -/
def cssMatcher (s : List Char) : Option (Nat × List Char) :=
  match dropPfx? "href=\"".data s with
  | none => none
  | some s1 =>
    (firstSome (fun br => clsGroupQuote br.1 br.2 s1)
        [("style.css".data, 0), ("css/".data, 0)]).map
      (fun pr => (6 + pr.1, "href=\"../".data ++ pr.2 ++ ['"']))

/-- `src="(js/[^"]+|app\.js[^"]*)"` → `src="../\1"`. -/
def jsMatcher (s : List Char) : Option (Nat × List Char) :=
  match dropPfx? "src=\"".data s with
  | none => none
  | some s1 =>
    (firstSome (fun br => clsGroupQuote br.1 br.2 s1)
        [("js/".data, 1), ("app.js".data, 0)]).map
      (fun pr => (5 + pr.1, "src=\"../".data ++ pr.2 ++ ['"']))

/-- `(href|src)="(media/[^"]+)"` → `\1="../\2"`. -/
def mediaMatcher (s : List Char) : Option (Nat × List Char) :=
  firstSome
    (fun a =>
      match dropPfx? (a ++ ['=', '"']) s with
      | none => none
      | some s1 =>
        (clsGroupQuote "media/".data 1 s1).map
          (fun pr => (a.length + 2 + pr.1, a ++ "=\"../".data ++ pr.2 ++ ['"'])))
    ["href".data, "src".data]

/-- `src="(data/[^"]+)"` → `src="../\1"`. -/
def dataMatcher (s : List Char) : Option (Nat × List Char) :=
  match dropPfx? "src=\"".data s with
  | none => none
  | some s1 =>
    (clsGroupQuote "data/".data 1 s1).map
      (fun pr => (5 + pr.1, "src=\"../".data ++ pr.2 ++ ['"']))

/-- `update_asset_paths(html, is_default)`. -/
def update_asset_paths (html : List Char) (is_default : Bool) : List Char :=
  if is_default then html
  else reSub dataMatcher (reSub mediaMatcher (reSub jsMatcher (reSub cssMatcher html)))

/-- `lang="[^"]*"` → `lang="LANG"` (the inner sub of the component lambda). -/
def langAttrMatcher (lang : String) (s : List Char) : Option (Nat × List Char) :=
  match dropPfx? "lang=\"".data s with
  | none => none
  | some s1 =>
    match s1.drop (s1.takeWhile (· ≠ '"')).length with
    | '"' :: _ =>
      some (6 + (s1.takeWhile (· ≠ '"')).length + 1,
        "lang=\"".data ++ lang.data ++ ['"'])
    | _ => none

/-- `(<site-header[^>]*)` (or footer) with the lambda replacement: append
a `lang` attribute if the match has none, else rewrite the existing one. -/
def componentMatcher (tagLit : List Char) (lang : String) (s : List Char) :
    Option (Nat × List Char) :=
  match dropPfx? tagLit s with
  | none => none
  | some s1 =>
    some (tagLit.length + (s1.takeWhile (· ≠ '>')).length,
      if containsL (tagLit ++ s1.takeWhile (· ≠ '>')) "lang=".data then
        reSub (langAttrMatcher lang) (tagLit ++ s1.takeWhile (· ≠ '>'))
      else
        (tagLit ++ s1.takeWhile (· ≠ '>')) ++ " lang=\"".data ++ lang.data ++ ['"'])

/-- `update_component_lang_attributes(html, lang, page_name)`. -/
def update_component_lang_attributes (html : List Char) (lang : String) : List Char :=
  reSub (componentMatcher "<site-footer".data lang)
    (reSub (componentMatcher "<site-header".data lang) html)

/-! ### `generate_page` and `main` (generate_i18n_all.py lines 215-296) -/

/-- The pure transformation chain of `generate_page` on a source page's
text. -/
def generate_page_html (src : List Char) (page lang : String) (t : Meta)
    (csvT : TransT) (is_default : Bool) : List Char :=
  translate_content
    (update_component_lang_attributes
      (update_asset_paths
        (add_hreflang_tags (translate_html_attributes src lang t page) page)
        is_default)
      lang)
    lang csvT

/-- The generator's input tree: the Store CSV file, the two metadata
tables, and the site's HTML files by path. -/
structure GenFS where
  csvFile : Option (List Char)
  enJson : Option Meta
  esJson : Option Meta
  pages : List (String × List Char)

/-- The row loop of `load_translations_csv`: skip `deleted` rows, then
`translations[lang][row['id']] = row[lang]` (a `KeyError` on a missing
column aborts). -/
def loadTransGo (header : List String) : TransT → List (List String) → Except String TransT
  | acc, [] => .ok acc
  | acc, fields :: rest =>
    if (lookupA (header.zip fields) "status").getD "active" = "deleted" then
      loadTransGo header acc rest
    else
      match lookupA (header.zip fields) "id", lookupA (header.zip fields) "en",
          lookupA (header.zip fields) "es" with
      | some i, some e, some sp =>
        loadTransGo header ⟨updA i e acc.en, updA i sp acc.es⟩ rest
      | _, _, _ => .error "KeyError"

/-- `load_translations_csv()`: `FileNotFoundError` when the Store file is
absent, else parse it (an empty file has no field names and no rows). -/
def load_translations_csv (f : Option (List Char)) : Except String TransT :=
  match f with
  | none => .error "FileNotFoundError: Translation CSV not found: i18n/translations.csv"
  | some content =>
    match parseRecords content with
    | [] => .ok ⟨[], []⟩
    | header :: rows => loadTransGo header ⟨[], []⟩ rows

/-- `load_translations(lang)`: the metadata table for `lang`, or
`FileNotFoundError`. -/
def load_translations (fs : GenFS) (lang : String) : Except String Meta :=
  match (if lang = "en" then fs.enJson else fs.esJson) with
  | some m => .ok m
  | none => .error ("FileNotFoundError: Translation file not found: i18n/" ++ lang ++ ".json")

def genPagesList : List String := ["index", "about", "contact", "portfolio", "project"]

/-- The per-language page loop of `main`: read each source page from the
current tree (a missing page is skipped with a warning), transform it
and write the output (which updates the tree — the default language
writes back to the source paths).  Returns the final tree and the
chronological write log. -/
def runLangPages (lang : String) (t : Meta) (csvT : TransT) (is_default : Bool) :
    GenFS → List (String × List Char) → List String → GenFS × List (String × List Char)
  | fs, writes, [] => (fs, writes)
  | fs, writes, page :: rest =>
    match lookupA fs.pages (page ++ ".html") with
    | none => runLangPages lang t csvT is_default fs writes rest
    | some src =>
      runLangPages lang t csvT is_default
        { fs with
          pages := updA
            (if is_default then page ++ ".html" else lang ++ "/" ++ page ++ ".html")
            (generate_page_html src page lang t csvT is_default) fs.pages }
        (writes ++
          [((if is_default then page ++ ".html" else lang ++ "/" ++ page ++ ".html"),
            generate_page_html src page lang t csvT is_default)])
        rest

/-- A `generate_i18n_all.main` run: the chronological write log and the
outcome (`languages = ["en", "es"]`; each language's metadata table is
loaded just before that language's pages are generated). -/
structure GenResult where
  writes : List (String × List Char)
  outcome : Except String Unit
deriving DecidableEq

def generate_main (fs0 : GenFS) : GenResult :=
  match load_translations_csv fs0.csvFile with
  | .error e => ⟨[], .error e⟩
  | .ok csvT =>
    match load_translations fs0 "en" with
    | .error e => ⟨[], .error e⟩
    | .ok tEn =>
      match runLangPages "en" tEn csvT true fs0 [] genPagesList with
      | (fs1, w1) =>
        match load_translations fs1 "es" with
        | .error e => ⟨w1, .error e⟩
        | .ok tEs =>
          ⟨(runLangPages "es" tEs csvT false fs1 w1 genPagesList).2, .ok ()⟩

/-! ## Helper lemmas on the dict model -/

theorem lookupA_nil {α : Type} (k : String) : lookupA ([] : List (String × α)) k = none := rfl

theorem lookupA_cons {α : Type} (k' : String) (v : α) (l : List (String × α)) (k : String) :
    lookupA ((k', v) :: l) k = if k' = k then some v else lookupA l k := by
  by_cases h : k' = k <;> simp [lookupA, List.find?_cons, h]

theorem lookupA_updA_self {α : Type} (k : String) (v : α) (l : List (String × α)) :
    lookupA (updA k v l) k = some v := by
  induction l with
  | nil => simp [updA, lookupA_cons]
  | cons p rest ih =>
    obtain ⟨a, b⟩ := p
    by_cases h : a = k
    · simp [updA, h, lookupA_cons]
    · rw [show updA k v ((a, b) :: rest) = (a, b) :: updA k v rest from by simp [updA, h],
        lookupA_cons, if_neg h]
      exact ih

theorem lookupA_updA_ne {α : Type} (k k' : String) (v : α) (l : List (String × α))
    (h : k' ≠ k) : lookupA (updA k v l) k' = lookupA l k' := by
  induction l with
  | nil => simp [updA, lookupA_cons, lookupA_nil, Ne.symm h]
  | cons p rest ih =>
    obtain ⟨a, b⟩ := p
    by_cases hp : a = k
    · subst hp
      simp [updA, lookupA_cons, Ne.symm h]
    · rw [show updA k v ((a, b) :: rest) = (a, b) :: updA k v rest from by simp [updA, hp],
        lookupA_cons, lookupA_cons]
      by_cases hpk : a = k'
      · simp [hpk]
      · simp [hpk, ih]

theorem mem_updA {α : Type} (k : String) (v : α) (l : List (String × α))
    (x : String × α) (hx : x ∈ updA k v l) : x = (k, v) ∨ x ∈ l := by
  induction l with
  | nil => simpa [updA] using hx
  | cons p rest ih =>
    by_cases h : p.1 = k
    · simp only [updA, if_pos h, List.mem_cons] at hx
      rcases hx with h1 | h2
      · exact .inl h1
      · exact .inr (List.mem_cons_of_mem _ h2)
    · simp only [updA, if_neg h, List.mem_cons] at hx
      rcases hx with h1 | h2
      · exact .inr (by simp [h1])
      · rcases ih h2 with h3 | h4
        · exact .inl h3
        · exact .inr (List.mem_cons_of_mem _ h4)

/-! ## C9: extractor text normalization -/

/-- Specification of the extractor's capture windows over the event
stream: the same control discipline as `IDExtractor` (`currentId`,
`currentTag`, `captureContent`), but recording for each identifier the
raw list of text fragments captured for it, with no joining and no
normalization.  The recorded string contents of the real extractor are
compared against these reference fragments. -/
structure CapState where
  frags : List (String × List String)
  currentId : Option String
  currentTag : Option String
  captureContent : Bool
deriving DecidableEq

def initCap : CapState := ⟨[], none, none, false⟩

/-- One event-step of the capture-window specification, mirroring the
four `IDExtractor` callbacks on the control state and recording raw
fragments. -/
def capEvent (g : CapState) : HtmlEvent → CapState
  | .startTag tag attrs =>
    match dictGet attrs "id" with
    | none => g
    | some eid =>
      { g with
        currentId := some eid
        currentTag := some tag
        captureContent := true
        frags := updA eid [] g.frags }
  | .endTag tag =>
    if g.captureContent ∧ g.currentTag = some tag then
      match g.currentId with
      | some _ => { g with captureContent := false, currentId := none, currentTag := none }
      | none => g
    else g
  | .data text =>
    if g.captureContent then
      match g.currentId with
      | some cid =>
        if cid = "" then g
        else { g with frags := updA cid ((lookupA g.frags cid).getD [] ++ [text]) g.frags }
      | none => g
    else g
  | .startEndTag _ attrs =>
    match dictGet attrs "id" with
    | none => g
    | some eid => { g with frags := updA eid [] g.frags }

/-- The text fragments the parser's capture discipline assigns to each
identifier of a document. -/
def capturedFrags (events : List HtmlEvent) : List (String × List String) :=
  (events.foldl capEvent initCap).frags

/-- Simulation invariant between the real extractor state and the
capture-window specification: the control fields coincide, raw fragment
lists coincide, every string-valued entry is the normalization of the
join of its reference fragments, and the identifier currently being
captured holds either a raw list or the empty string (the latter only
after a same-id self-closing tag). -/
def CapRel (st : ExtState) (g : CapState) : Prop :=
  g.currentId = st.currentId ∧ g.currentTag = st.currentTag ∧
  g.captureContent = st.captureContent ∧
  (∀ i l, lookupA st.elements i = some (.lst l) → lookupA g.frags i = some l) ∧
  (∀ i s, lookupA st.elements i = some (.str s) →
    ∃ l, lookupA g.frags i = some l ∧ s = pyNormalize (String.join l)) ∧
  (st.captureContent = true → ∀ cid, st.currentId = some cid →
    (∃ l, lookupA st.elements cid = some (.lst l)) ∨
      lookupA st.elements cid = some (.str ""))

theorem capRel_init : CapRel initExt initCap := by
  refine ⟨rfl, rfl, rfl, ?_, ?_, ?_⟩
  · intro i l h
    simp [initExt, lookupA] at h
  · intro i s h
    simp [initExt, lookupA] at h
  · intro h
    exact absurd h (by decide)

theorem capRel_feedEvent (st : ExtState) (e : HtmlEvent) (st' : ExtState) (g : CapState)
    (hok : feedEvent st e = .ok st') (h : CapRel st g) : CapRel st' (capEvent g e) := by
  obtain ⟨gf, gi, gt, gc⟩ := g
  obtain ⟨hid, htag, hcap, hA, hB, hC⟩ := h
  dsimp only at hid htag hcap
  subst hid htag hcap
  cases e with
  | startTag tag attrs =>
    simp only [feedEvent, Except.ok.injEq] at hok
    subst hok
    unfold handleStartTag
    simp only [capEvent]
    match hd : dictGet attrs "id" with
    | none => exact ⟨rfl, rfl, rfl, hA, hB, hC⟩
    | some eid =>
      refine ⟨rfl, rfl, rfl, ?_, ?_, ?_⟩
      · intro i l hl
        dsimp only at hl ⊢
        by_cases hie : i = eid
        · subst hie
          rw [lookupA_updA_self] at hl
          simp only [Option.some.injEq, PyVal.lst.injEq] at hl
          rw [lookupA_updA_self, ← hl]
        · rw [lookupA_updA_ne _ _ _ _ hie] at hl
          rw [lookupA_updA_ne _ _ _ _ hie]
          exact hA i l hl
      · intro i s hl
        dsimp only at hl ⊢
        by_cases hie : i = eid
        · subst hie
          rw [lookupA_updA_self] at hl
          exact absurd hl (by simp)
        · rw [lookupA_updA_ne _ _ _ _ hie] at hl
          rw [lookupA_updA_ne _ _ _ _ hie]
          exact hB i s hl
      · intro _ cid hcid
        dsimp only at hcid ⊢
        injection hcid with hcid
        subst hcid
        exact .inl ⟨[], lookupA_updA_self _ _ _⟩
  | endTag tag =>
    simp only [feedEvent, Except.ok.injEq] at hok
    subst hok
    unfold handleEndTag
    simp only [capEvent]
    by_cases hc : st.captureContent ∧ st.currentTag = some tag
    · simp only [if_pos hc]
      match hcid : st.currentId with
      | none => exact ⟨hcid.symm, rfl, rfl, hA, hB, hC⟩
      | some cid =>
        refine ⟨rfl, rfl, rfl, ?_, ?_, ?_⟩
        · intro i l hl
          dsimp only at hl ⊢
          by_cases hie : i = cid
          · subst hie
            rw [lookupA_updA_self] at hl
            exact absurd hl (by simp)
          · rw [lookupA_updA_ne _ _ _ _ hie] at hl
            exact hA i l hl
        · intro i s hl
          dsimp only at hl ⊢
          by_cases hie : i = cid
          · subst hie
            rw [lookupA_updA_self] at hl
            simp only [Option.some.injEq, PyVal.str.injEq] at hl
            rcases hC hc.1 i hcid with ⟨l, hel⟩ | hstr
            · refine ⟨l, hA i l hel, ?_⟩
              rw [← hl, hel]
              rfl
            · rcases hB i "" hstr with ⟨l, hgl, hnil⟩
              refine ⟨l, hgl, ?_⟩
              rw [← hl, hstr]
              have hz : pyNormalize (pyJoinChars ((some (PyVal.str "")).getD (.lst []))) =
                  "" := by decide
              rw [hz]
              exact hnil
          · rw [lookupA_updA_ne _ _ _ _ hie] at hl
            exact hB i s hl
        · intro hcc
          simp at hcc
    · simp only [if_neg hc]
      exact ⟨rfl, rfl, rfl, hA, hB, hC⟩
  | data d =>
    unfold feedEvent handleData at hok
    simp only [capEvent]
    by_cases hcap2 : st.captureContent
    · simp only [if_pos hcap2] at hok ⊢
      match hcid : st.currentId with
      | none =>
        simp only [hcid, Except.ok.injEq] at hok
        subst hok
        exact ⟨hcid.symm, rfl, rfl, hA, hB, hC⟩
      | some cid =>
        simp only [hcid] at hok
        by_cases hemp : cid = ""
        · simp only [if_pos hemp, Except.ok.injEq] at hok
          subst hok
          simp only [if_pos hemp]
          exact ⟨hcid.symm, rfl, rfl, hA, hB, hC⟩
        · simp only [if_neg hemp] at hok ⊢
          match hv : lookupA st.elements cid with
          | some (.lst l) =>
            simp only [hv, Except.ok.injEq] at hok
            subst hok
            have hgl := hA cid l hv
            simp only [hgl, Option.getD_some]
            refine ⟨rfl, rfl, rfl, ?_, ?_, ?_⟩
            · intro i l' hl
              dsimp only at hl ⊢
              by_cases hie : i = cid
              · subst hie
                rw [lookupA_updA_self] at hl
                simp only [Option.some.injEq, PyVal.lst.injEq] at hl
                rw [lookupA_updA_self, ← hl]
              · rw [lookupA_updA_ne _ _ _ _ hie] at hl
                rw [lookupA_updA_ne _ _ _ _ hie]
                exact hA i l' hl
            · intro i s hl
              dsimp only at hl ⊢
              by_cases hie : i = cid
              · subst hie
                rw [lookupA_updA_self] at hl
                exact absurd hl (by simp)
              · rw [lookupA_updA_ne _ _ _ _ hie] at hl
                rw [lookupA_updA_ne _ _ _ _ hie]
                exact hB i s hl
            · intro _ cid' hcid'
              dsimp only at hcid' ⊢
              injection hcid' with hcid'
              subst hcid'
              exact .inl ⟨l ++ [d], lookupA_updA_self _ _ _⟩
          | some (.str s0) => simp [hv] at hok
          | none => simp [hv] at hok
    · simp only [if_neg hcap2] at hok ⊢
      simp only [Except.ok.injEq] at hok
      subst hok
      exact ⟨rfl, rfl, rfl, hA, hB, hC⟩
  | startEndTag tag attrs =>
    simp only [feedEvent, Except.ok.injEq] at hok
    subst hok
    unfold handleStartEndTag
    simp only [capEvent]
    match hd : dictGet attrs "id" with
    | none => exact ⟨rfl, rfl, rfl, hA, hB, hC⟩
    | some eid =>
      refine ⟨rfl, rfl, rfl, ?_, ?_, ?_⟩
      · intro i l hl
        dsimp only at hl ⊢
        by_cases hie : i = eid
        · subst hie
          rw [lookupA_updA_self] at hl
          exact absurd hl (by simp)
        · rw [lookupA_updA_ne _ _ _ _ hie] at hl
          rw [lookupA_updA_ne _ _ _ _ hie]
          exact hA i l hl
      · intro i s hl
        dsimp only at hl ⊢
        by_cases hie : i = eid
        · subst hie
          rw [lookupA_updA_self] at hl
          simp only [Option.some.injEq, PyVal.str.injEq] at hl
          refine ⟨[], lookupA_updA_self _ _ _, ?_⟩
          rw [← hl]
          rfl
        · rw [lookupA_updA_ne _ _ _ _ hie] at hl
          rw [lookupA_updA_ne _ _ _ _ hie]
          exact hB i s hl
      · intro hcc cid hcid
        dsimp only at hcc hcid ⊢
        by_cases hie : cid = eid
        · subst hie
          exact .inr (lookupA_updA_self _ _ _)
        · rcases hC hcc cid hcid with ⟨l, hel⟩ | hstr
          · refine .inl ⟨l, ?_⟩
            rw [lookupA_updA_ne _ _ _ _ hie]
            exact hel
          · refine .inr ?_
            rw [lookupA_updA_ne _ _ _ _ hie]
            exact hstr

theorem capRel_feedEvents (events : List HtmlEvent) :
    ∀ (st st' : ExtState) (g : CapState), feedEvents st events = .ok st' → CapRel st g →
      CapRel st' (events.foldl capEvent g) := by
  induction events with
  | nil =>
    intro st st' g h hr
    simp only [feedEvents, Except.ok.injEq] at h
    exact h ▸ hr
  | cons e es ih =>
    intro st st' g h hr
    unfold feedEvents at h
    match he : feedEvent st e with
    | .ok st1 =>
      rw [he] at h
      exact ih st1 st' (capEvent g e) h (capRel_feedEvent st e st1 g he hr)
    | .error m => rw [he] at h; exact absurd h (by simp)

/-- Claim C9, as stated, is false: the normalization (collapse whitespace
runs, trim) is NOT applied to an identifier whose capture window is
interrupted by a later id-bearing start tag before its own element
closes.  In `<div id="a"> hello <span id="b">x</span> world </div>` the
identifier `a` is recorded as the raw fragment list `[" hello "]` (not
even a string), while the claim says its recorded content would be the
normalized captured text. -/
theorem c9_counterexample :
    ¬ (∀ (elems : List (String × PyVal)),
        extract_ids_from_html
          [.startTag "div" [("id", "a")], .data " hello ",
            .startTag "span" [("id", "b")], .data "x", .endTag "span",
            .data " world ", .endTag "div"] = .ok elems →
        ∀ pr ∈ elems, ∃ t0, pr.2 = PyVal.str (pyNormalize t0)) := by
  intro h
  have h2 := h [("a", PyVal.lst [" hello "]), ("b", PyVal.str "x")] (by decide)
    ("a", PyVal.lst [" hello "]) (by decide)
  obtain ⟨t0, ht⟩ := h2
  exact absurd ht (by simp)

/-- Claim C9, corrected: every identifier whose recorded content at the
`extract_ids_from_html` interface is a *string* — i.e. whose capture
window completed via its element's close tag, or which was self-closing
— carries exactly the text fragments its capture window collected,
joined (`''.join`) and whitespace-normalized (runs collapsed to one
space, ends trimmed); a self-closing tag collects no fragments and is
recorded as the empty string.  Identifiers interrupted by a later
id-bearing start tag before their own element closes instead retain
their raw fragment list (see the counterexample). -/
theorem c9_completed_captures_are_normalized
    (events : List HtmlEvent) (elems : List (String × PyVal))
    (hok : extract_ids_from_html events = .ok elems)
    (i s : String) (hmem : lookupA elems i = some (.str s)) :
    ∃ l, lookupA (capturedFrags events) i = some l ∧ s = pyNormalize (String.join l) := by
  unfold extract_ids_from_html at hok
  match hfe : feedEvents initExt events with
  | .ok st =>
    rw [hfe] at hok
    simp only [Except.map, Except.ok.injEq] at hok
    have hrel := capRel_feedEvents events initExt st initCap hfe capRel_init
    refine hrel.2.2.2.2.1 i s ?_
    rw [← hok] at hmem
    exact hmem
  | .error m => rw [hfe] at hok; exact absurd hok (by simp [Except.map])

/-- Witness for C9's corrected theorem at the counterexample document:
the completed capture `b` records `"x"`, the normalization of the join
of exactly its captured fragments. -/
theorem c9_completed_captures_are_normalized_witness :
    ∃ l, lookupA (capturedFrags
        [.startTag "div" [("id", "a")], .data " hello ",
          .startTag "span" [("id", "b")], .data "x", .endTag "span",
          .data " world ", .endTag "div"]) "b" = some l ∧
      ("x" : String) = pyNormalize (String.join l) :=
  c9_completed_captures_are_normalized
    [.startTag "div" [("id", "a")], .data " hello ",
      .startTag "span" [("id", "b")], .data "x", .endTag "span",
      .data " world ", .endTag "div"]
    [("a", PyVal.lst [" hello "]), ("b", PyVal.str "x")]
    (by decide) "b" "x" (by decide)

/-! ## The dedup loop keeps, per source text, a highest-scoring row -/

theorem dedupGo_max (rows : List StoreRow) :
    ∀ (seen : List (String × StoreRow)) (acc processed : List StoreRow),
      (∀ a ∈ acc, lookupA seen a.en = some a) →
      (∀ a ∈ acc, a ∈ processed) →
      (∀ t sr, lookupA seen t = some sr → sr.en = t ∧ sr ∈ processed ∧
        ∀ r' ∈ processed, r'.en = t → id_score r'.id ≤ id_score sr.id) →
      (∀ r' ∈ processed, (lookupA seen r'.en).isSome) →
      ∀ r ∈ dedupGo seen acc rows,
        (r ∈ processed ∨ r ∈ rows) ∧
        ∀ r', (r' ∈ processed ∨ r' ∈ rows) → r'.en = r.en →
          id_score r'.id ≤ id_score r.id := by
  induction rows with
  | nil =>
    intro seen acc processed hacc hin hseen _ r hr
    simp only [dedupGo] at hr
    have h2 := hseen r.en r (hacc r hr)
    refine ⟨.inl (hin r hr), ?_⟩
    intro r' hr' hen
    rcases hr' with h | h
    · exact h2.2.2 r' h hen
    · cases h
  | cons row rest ih =>
    intro seen acc processed hacc hin hseen hproc r hr
    simp only [dedupGo] at hr
    have conclude :
        (r ∈ processed ++ [row] ∨ r ∈ rest) ∧
          (∀ r', (r' ∈ processed ++ [row] ∨ r' ∈ rest) → r'.en = r.en →
            id_score r'.id ≤ id_score r.id) →
        (r ∈ processed ∨ r ∈ row :: rest) ∧
          ∀ r', (r' ∈ processed ∨ r' ∈ row :: rest) → r'.en = r.en →
            id_score r'.id ≤ id_score r.id := by
      rintro ⟨hm, hmax⟩
      constructor
      · rcases hm with hm | hm
        · rcases List.mem_append.mp hm with hm2 | hm2
          · exact .inl hm2
          · exact .inr (by simp [List.mem_singleton.mp hm2])
        · exact .inr (List.mem_cons_of_mem _ hm)
      · intro r' hr' hen
        apply hmax r' _ hen
        rcases hr' with h | h
        · exact .inl (List.mem_append.mpr (.inl h))
        · rcases List.mem_cons.mp h with h2 | h2
          · exact .inl (List.mem_append.mpr (.inr (by simp [h2])))
          · exact .inr h2
    match hl : lookupA seen row.en with
    | none =>
      rw [hl] at hr
      refine conclude (ih (updA row.en row seen) (acc ++ [row]) (processed ++ [row])
        ?_ ?_ ?_ ?_ r hr)
      · intro a ha
        rcases List.mem_append.mp ha with ha2 | ha2
        · have hne : a.en ≠ row.en := by
            intro he
            have := hacc a ha2
            rw [he, hl] at this
            cases this
          rw [lookupA_updA_ne _ _ _ _ hne]
          exact hacc a ha2
        · have : a = row := List.mem_singleton.mp ha2
          subst this
          exact lookupA_updA_self _ _ _
      · intro a ha
        rcases List.mem_append.mp ha with ha2 | ha2
        · exact List.mem_append.mpr (.inl (hin a ha2))
        · exact List.mem_append.mpr (.inr ha2)
      · intro t sr hl2
        by_cases ht : t = row.en
        · subst ht
          rw [lookupA_updA_self] at hl2
          cases hl2
          refine ⟨rfl, List.mem_append.mpr (.inr (by simp)), ?_⟩
          intro r' hr' hen
          rcases List.mem_append.mp hr' with h | h
          · have := hproc r' h
            rw [hen, hl] at this
            cases this
          · have : r' = row := List.mem_singleton.mp h
            subst this
            exact le_refl _
        · rw [lookupA_updA_ne _ _ _ _ ht] at hl2
          obtain ⟨he, hm, hmax⟩ := hseen t sr hl2
          refine ⟨he, List.mem_append.mpr (.inl hm), ?_⟩
          intro r' hr' hen
          rcases List.mem_append.mp hr' with h | h
          · exact hmax r' h hen
          · have : r' = row := List.mem_singleton.mp h
            subst this
            exact absurd hen.symm ht
      · intro r' hr'
        rcases List.mem_append.mp hr' with h | h
        · by_cases he : r'.en = row.en
          · rw [he, lookupA_updA_self]
            rfl
          · rw [lookupA_updA_ne _ _ _ _ he]
            exact hproc r' h
        · have : r' = row := List.mem_singleton.mp h
          subst this
          rw [lookupA_updA_self]
          rfl
    | some er =>
      rw [hl] at hr
      have hr2 : r ∈ (if id_score row.id > id_score er.id then
          dedupGo (updA row.en row seen)
            ((acc.filter (fun r0 => r0.id ≠ er.id)) ++ [row]) rest
        else dedupGo seen acc rest) := hr
      clear hr
      obtain ⟨her_en, her_mem, her_max⟩ := hseen row.en er hl
      by_cases hscore : id_score row.id > id_score er.id
      · rw [if_pos hscore] at hr2
        refine conclude (ih (updA row.en row seen)
          ((acc.filter (fun r0 => r0.id ≠ er.id)) ++ [row]) (processed ++ [row])
          ?_ ?_ ?_ ?_ r hr2)
        · intro a ha
          rcases List.mem_append.mp ha with ha2 | ha2
          · have ha3 := List.mem_of_mem_filter ha2
            have hane : a.id ≠ er.id := by
              have := List.of_mem_filter ha2
              simpa using this
            have hne : a.en ≠ row.en := by
              intro he
              have := hacc a ha3
              rw [he, hl] at this
              cases this
              exact hane rfl
            rw [lookupA_updA_ne _ _ _ _ hne]
            exact hacc a ha3
          · have : a = row := List.mem_singleton.mp ha2
            subst this
            exact lookupA_updA_self _ _ _
        · intro a ha
          rcases List.mem_append.mp ha with ha2 | ha2
          · exact List.mem_append.mpr (.inl (hin a (List.mem_of_mem_filter ha2)))
          · exact List.mem_append.mpr (.inr ha2)
        · intro t sr hl2
          by_cases ht : t = row.en
          · subst ht
            rw [lookupA_updA_self] at hl2
            cases hl2
            refine ⟨rfl, List.mem_append.mpr (.inr (by simp)), ?_⟩
            intro r' hr' hen
            rcases List.mem_append.mp hr' with h | h
            · exact le_trans (her_max r' h hen) (le_of_lt hscore)
            · have : r' = row := List.mem_singleton.mp h
              subst this
              exact le_refl _
          · rw [lookupA_updA_ne _ _ _ _ ht] at hl2
            obtain ⟨he, hm, hmax⟩ := hseen t sr hl2
            refine ⟨he, List.mem_append.mpr (.inl hm), ?_⟩
            intro r' hr' hen
            rcases List.mem_append.mp hr' with h | h
            · exact hmax r' h hen
            · have : r' = row := List.mem_singleton.mp h
              subst this
              exact absurd hen.symm ht
        · intro r' hr'
          rcases List.mem_append.mp hr' with h | h
          · by_cases he : r'.en = row.en
            · rw [he, lookupA_updA_self]
              rfl
            · rw [lookupA_updA_ne _ _ _ _ he]
              exact hproc r' h
          · have : r' = row := List.mem_singleton.mp h
            subst this
            rw [lookupA_updA_self]
            rfl
      · rw [if_neg hscore] at hr2
        refine conclude (ih seen acc (processed ++ [row]) ?_ ?_ ?_ ?_ r hr2)
        · exact hacc
        · intro a ha
          exact List.mem_append.mpr (.inl (hin a ha))
        · intro t sr hl2
          obtain ⟨he, hm, hmax⟩ := hseen t sr hl2
          refine ⟨he, List.mem_append.mpr (.inl hm), ?_⟩
          intro r' hr' hen
          rcases List.mem_append.mp hr' with h | h
          · exact hmax r' h hen
          · have : r' = row := List.mem_singleton.mp h
            subst this
            have hse : sr = er := by
              rw [← hen, hl] at hl2
              simpa using hl2.symm
            rw [hse]
            exact not_lt.mp hscore
        · intro r' hr'
          rcases List.mem_append.mp hr' with h | h
          · exact hproc r' h
          · have : r' = row := List.mem_singleton.mp h
            subst this
            rw [hl]
            rfl

theorem dedupGo_subset : ∀ (rows : List StoreRow) (seen : List (String × StoreRow))
    (acc : List StoreRow), ∀ r ∈ dedupGo seen acc rows, r ∈ acc ∨ r ∈ rows := by
  intro rows
  induction rows with
  | nil =>
    intro seen acc r hr
    simp only [dedupGo] at hr
    exact .inl hr
  | cons row rest ih =>
    intro seen acc r hr
    simp only [dedupGo] at hr
    cases hl : lookupA seen row.en with
    | none =>
      rw [hl] at hr
      rcases ih _ _ r hr with h | h
      · rcases List.mem_append.mp h with h2 | h2
        · exact .inl h2
        · exact .inr (by simp [List.mem_singleton.mp h2])
      · exact .inr (List.mem_cons_of_mem _ h)
    | some er =>
      rw [hl] at hr
      have hr2 : r ∈ (if id_score row.id > id_score er.id then
          dedupGo (updA row.en row seen)
            ((acc.filter (fun r0 => r0.id ≠ er.id)) ++ [row]) rest
        else dedupGo seen acc rest) := hr
      by_cases hscore : id_score row.id > id_score er.id
      · rw [if_pos hscore] at hr2
        rcases ih _ _ r hr2 with h | h
        · rcases List.mem_append.mp h with h2 | h2
          · exact .inl (List.mem_of_mem_filter h2)
          · exact .inr (by simp [List.mem_singleton.mp h2])
        · exact .inr (List.mem_cons_of_mem _ h)
      · rw [if_neg hscore] at hr2
        rcases ih _ _ r hr2 with h | h
        · exact .inl h
        · exact .inr (List.mem_cons_of_mem _ h)

/-- Claim C2, confirmed: the dedup score is +100 for a hyphen, −1000 for
an underscore, −50 for neither, minus the identifier's length; every row
`write_csv` keeps comes from its input and scores at least as high as
every input row with the same source text; and on `nav_logo`/`nav-logo`
both wrapping "Home", `nav-logo` is kept and `nav_logo` dropped in
either encounter order. -/
theorem c2_dedup_prefers_highest_scoring_id :
    (∀ i : String, id_score i =
      (if i.data.contains '-' then (100 : Int) else 0) +
        (if i.data.contains '_' then (-1000 : Int) else 0) +
        (if i.data.contains '-' = false ∧ i.data.contains '_' = false then (-50 : Int) else 0) -
        i.length) ∧
    (∀ rows : List StoreRow, ∀ r ∈ write_csv_dedup rows,
      r ∈ rows ∧ ∀ r' ∈ rows, r'.en = r.en → id_score r'.id ≤ id_score r.id) ∧
    (write_csv_dedup
        [⟨"index", "/index.html", "active", "a", "nav_logo", "Home", ""⟩,
          ⟨"index", "/index.html", "active", "a", "nav-logo", "Home", ""⟩]).map (·.id) =
      ["nav-logo"] ∧
    (write_csv_dedup
        [⟨"index", "/index.html", "active", "a", "nav-logo", "Home", ""⟩,
          ⟨"index", "/index.html", "active", "a", "nav_logo", "Home", ""⟩]).map (·.id) =
      ["nav-logo"] := by
  refine ⟨?_, ?_, by decide, by decide⟩
  · intro i
    unfold id_score
    cases h1 : i.data.contains '_' <;> cases h2 : i.data.contains '-' <;>
      simp [h1, h2]
  · intro rows r hr
    have h := dedupGo_max rows [] [] []
      (by intro a ha; cases ha)
      (by intro a ha; cases ha)
      (by intro t sr h; simp [lookupA] at h)
      (by intro r' h; cases h)
      r hr
    rcases h with ⟨hm, hmax⟩
    refine ⟨?_, ?_⟩
    · rcases hm with h | h
      · cases h
      · exact h
    · intro r' hr' hen
      exact hmax r' (.inr hr') hen

/-- Witness for C2 at the claim's concrete instance: applying the kept-row
score bound to the two-row input shows `nav_logo` scores no higher than
the kept `nav-logo`. -/
theorem c2_dedup_prefers_highest_scoring_id_witness :
    id_score "nav_logo" ≤ id_score "nav-logo" :=
  ((c2_dedup_prefers_highest_scoring_id.2.1
      [⟨"index", "/index.html", "active", "a", "nav_logo", "Home", ""⟩,
        ⟨"index", "/index.html", "active", "a", "nav-logo", "Home", ""⟩]
      ⟨"index", "/index.html", "active", "a", "nav-logo", "Home", ""⟩
      (by decide)).2
    ⟨"index", "/index.html", "active", "a", "nav_logo", "Home", ""⟩
    (by decide) (by decide))

/-! ## Facts about `create_updated_csv` -/

theorem createGo_facts (e : ExistingMap) (t : TagInfo) :
    ∀ (trips : List (String × String × ScanContent)) (proc : List String),
      ∀ r ∈ createGo e t trips proc,
        r.status = "active" ∧ pyStrip r.en ≠ "" ∧ ∃ pg c, (pg, r.id, c) ∈ trips := by
  intro trips
  induction trips with
  | nil =>
    intro proc r hr
    simp [createGo] at hr
  | cons tr rest ih =>
    obtain ⟨pg, i, c⟩ := tr
    intro proc r hr
    simp only [createGo] at hr
    by_cases hc : proc.contains i
    · rw [if_pos hc] at hr
      obtain ⟨h1, h2, pg', c', h3⟩ := ih proc r hr
      exact ⟨h1, h2, pg', c', List.mem_cons_of_mem _ h3⟩
    · rw [if_neg hc] at hr
      by_cases hs : pyStrip (pyJoinVal ((c.en).getD (.str ""))) = ""
      · rw [if_pos hs] at hr
        obtain ⟨h1, h2, pg', c', h3⟩ := ih _ r hr
        exact ⟨h1, h2, pg', c', List.mem_cons_of_mem _ h3⟩
      · rw [if_neg hs] at hr
        rcases List.mem_cons.mp hr with h | h
        · subst h
          refine ⟨rfl, hs, pg, c, ?_⟩
          have hid : (buildRow e t pg i c).id = i := rfl
          rw [hid]
          exact List.mem_cons_self _ _
        · obtain ⟨h1, h2, pg', c', h3⟩ := ih _ r h
          exact ⟨h1, h2, pg', c', List.mem_cons_of_mem _ h3⟩

theorem createGo_buildRow (e : ExistingMap) (t : TagInfo) :
    ∀ (trips : List (String × String × ScanContent)) (proc : List String),
      ∀ r ∈ createGo e t trips proc,
        ∃ pg i c, r = buildRow e t pg i c ∧ (pg, i, c) ∈ trips := by
  intro trips
  induction trips with
  | nil =>
    intro proc r hr
    simp [createGo] at hr
  | cons tr rest ih =>
    obtain ⟨pg, i, c⟩ := tr
    intro proc r hr
    simp only [createGo] at hr
    by_cases hc : proc.contains i
    · rw [if_pos hc] at hr
      obtain ⟨pg', i', c', h1, h2⟩ := ih proc r hr
      exact ⟨pg', i', c', h1, List.mem_cons_of_mem _ h2⟩
    · rw [if_neg hc] at hr
      by_cases hs : pyStrip (pyJoinVal ((c.en).getD (.str ""))) = ""
      · rw [if_pos hs] at hr
        obtain ⟨pg', i', c', h1, h2⟩ := ih _ r hr
        exact ⟨pg', i', c', h1, List.mem_cons_of_mem _ h2⟩
      · rw [if_neg hs] at hr
        rcases List.mem_cons.mp hr with h | h
        · exact ⟨pg, i, c, h, List.mem_cons_self _ _⟩
        · obtain ⟨pg', i', c', h1, h2⟩ := ih _ r h
          exact ⟨pg', i', c', h1, List.mem_cons_of_mem _ h2⟩

theorem createGo_nodup (e : ExistingMap) (t : TagInfo) :
    ∀ (trips : List (String × String × ScanContent)) (proc : List String),
      ((createGo e t trips proc).map (·.id)).Nodup ∧
        ∀ r ∈ createGo e t trips proc, r.id ∉ proc := by
  intro trips
  induction trips with
  | nil =>
    intro proc
    simp [createGo]
  | cons tr rest ih =>
    obtain ⟨pg, i, c⟩ := tr
    intro proc
    simp only [createGo]
    by_cases hc : proc.contains i
    · rw [if_pos hc]
      exact ih proc
    · rw [if_neg hc]
      by_cases hs : pyStrip (pyJoinVal ((c.en).getD (.str ""))) = ""
      · rw [if_pos hs]
        obtain ⟨hnd, hnin⟩ := ih (i :: proc)
        refine ⟨hnd, ?_⟩
        intro r hr hmem
        exact hnin r hr (List.mem_cons_of_mem _ hmem)
      · rw [if_neg hs]
        obtain ⟨hnd, hnin⟩ := ih (i :: proc)
        constructor
        · rw [List.map_cons, List.nodup_cons]
          refine ⟨?_, hnd⟩
          intro hmem
          rw [List.mem_map] at hmem
          obtain ⟨r, hr, hid⟩ := hmem
          have : (buildRow e t pg i c).id = i := rfl
          rw [this] at hid
          exact hnin r hr (hid ▸ List.mem_cons_self i proc)
        · intro r hr hmem
          rcases List.mem_cons.mp hr with h | h
          · subst h
            have hid : (buildRow e t pg i c).id = i := rfl
            rw [hid] at hmem
            have hc2 : i ∉ proc := by simpa using hc
            exact hc2 hmem
          · exact hnin r h (List.mem_cons_of_mem _ hmem)

theorem dedupGo_nodup : ∀ (rows : List StoreRow) (seen : List (String × StoreRow))
    (acc : List StoreRow),
      ((acc.map (·.id)).Nodup) → ((rows.map (·.id)).Nodup) →
      (∀ a ∈ acc, ∀ b ∈ rows, a.id ≠ b.id) →
      ((dedupGo seen acc rows).map (·.id)).Nodup := by
  intro rows
  induction rows with
  | nil =>
    intro seen acc hacc _ _
    simpa [dedupGo] using hacc
  | cons row rest ih =>
    intro seen acc hacc hrows hdisj
    have hrow_rest : row.id ∉ rest.map (·.id) := by
      rw [List.map_cons, List.nodup_cons] at hrows
      exact hrows.1
    have hrest : (rest.map (·.id)).Nodup := by
      rw [List.map_cons, List.nodup_cons] at hrows
      exact hrows.2
    simp only [dedupGo]
    cases hl : lookupA seen row.en with
    | none =>
      apply ih
      · rw [List.map_append, List.nodup_append]
        refine ⟨hacc, by simp, ?_⟩
        intro x hx hy
        simp only [List.map_cons, List.map_nil, List.mem_singleton] at hy
        subst hy
        rw [List.mem_map] at hx
        obtain ⟨a, ha, hax⟩ := hx
        exact hdisj a ha row (List.mem_cons_self _ _) hax
      · exact hrest
      · intro a ha b hb
        rcases List.mem_append.mp ha with h | h
        · exact hdisj a h b (List.mem_cons_of_mem _ hb)
        · have : a = row := List.mem_singleton.mp h
          subst this
          intro he
          exact hrow_rest (he ▸ List.mem_map_of_mem (·.id) hb)
    | some er =>
      show (List.map (fun x => x.id) (if id_score row.id > id_score er.id then
          dedupGo (updA row.en row seen)
            ((acc.filter (fun r0 => r0.id ≠ er.id)) ++ [row]) rest
        else dedupGo seen acc rest)).Nodup
      by_cases hscore : id_score row.id > id_score er.id
      · rw [if_pos hscore]
        apply ih
        · rw [List.map_append, List.nodup_append]
          have hsub : List.Sublist
              ((acc.filter (fun r0 => r0.id ≠ er.id)).map (fun x => x.id))
              (acc.map (fun x => x.id)) :=
            (List.filter_sublist acc).map (fun x => x.id)
          refine ⟨List.Nodup.sublist hsub hacc, by simp, ?_⟩
          intro x hx hy
          simp only [List.map_cons, List.map_nil, List.mem_singleton] at hy
          subst hy
          rw [List.mem_map] at hx
          obtain ⟨a, ha, hax⟩ := hx
          exact hdisj a (List.mem_of_mem_filter ha) row (List.mem_cons_self _ _) hax
        · exact hrest
        · intro a ha b hb
          rcases List.mem_append.mp ha with h | h
          · exact hdisj a (List.mem_of_mem_filter h) b (List.mem_cons_of_mem _ hb)
          · have : a = row := List.mem_singleton.mp h
            subst this
            intro he
            exact hrow_rest (he ▸ List.mem_map_of_mem (·.id) hb)
      · rw [if_neg hscore]
        exact ih seen acc hacc hrest
          (fun a ha b hb => hdisj a ha b (List.mem_cons_of_mem _ hb))

/-! ## Whitespace lemmas -/

theorem collapseWsL_space_iff : ∀ l : List Char,
    (∀ c ∈ collapseWsL l, isPySpace c) ↔ ∀ c ∈ l, isPySpace c
  | [] => by simp [collapseWsL]
  | [c] => by
    have hsp : isPySpace ' ' = true := by decide
    by_cases h : isPySpace c <;> simp [collapseWsL, h, hsp]
  | c :: c' :: cs => by
    have ih := collapseWsL_space_iff (c' :: cs)
    have hsp : isPySpace ' ' = true := by decide
    by_cases h : isPySpace c
    · by_cases h' : isPySpace c'
      · rw [show collapseWsL (c :: c' :: cs) = collapseWsL (c' :: cs) from by
          simp [collapseWsL, h, h']]
        rw [ih]
        simp only [List.forall_mem_cons]
        simp [h]
      · rw [show collapseWsL (c :: c' :: cs) = ' ' :: collapseWsL (c' :: cs) from by
          simp [collapseWsL, h, h']]
        simp only [List.forall_mem_cons]
        rw [ih]
        simp [h, hsp]
    · rw [show collapseWsL (c :: c' :: cs) = c :: collapseWsL (c' :: cs) from by
        simp [collapseWsL, h]]
      simp only [List.forall_mem_cons]
      rw [ih]
      simp only [List.forall_mem_cons]

theorem pyStripL_eq_nil_iff (l : List Char) :
    pyStripL l = [] ↔ ∀ c ∈ l, isPySpace c := by
  unfold pyStripL
  rw [List.reverse_eq_nil_iff, List.dropWhile_eq_nil_iff]
  constructor
  · intro h c hc
    have hsplit : c ∈ l.takeWhile isPySpace ++ l.dropWhile isPySpace := by
      rw [List.takeWhile_append_dropWhile]
      exact hc
    rcases List.mem_append.mp hsplit with h1 | h1
    · exact List.mem_takeWhile_imp h1
    · exact h c (List.mem_reverse.mpr h1)
  · intro h c hc
    exact h c (List.dropWhile_subset _ (List.mem_reverse.mp hc))

theorem pyStrip_eq_empty_iff (s : String) :
    pyStrip s = "" ↔ ∀ c ∈ s.data, isPySpace c := by
  unfold pyStrip
  rw [String.ext_iff]
  exact pyStripL_eq_nil_iff s.data

theorem pyNormalize_ne_empty (s : String) (h : pyStrip s ≠ "") : pyNormalize s ≠ "" := by
  intro hn
  apply h
  unfold pyNormalize at hn
  rw [pyStrip_eq_empty_iff] at hn
  rw [pyStrip_eq_empty_iff]
  exact (collapseWsL_space_iff s.data).mp hn

theorem lookupA_eq_none_not_mem {α : Type} (l : List (String × α)) (k : String)
    (h : lookupA l k = none) : ∀ v, (k, v) ∉ l := by
  intro v hv
  unfold lookupA at h
  rw [Option.map_eq_none'] at h
  rw [List.find?_eq_none] at h
  exact absurd (by simp : (fun p => decide (p.1 = k)) (k, v) = true) (by simpa using h (k, v) hv)

/-! ## C3, C4, C5, C6 -/

/-- Claim C3, confirmed: in every Store the pipeline produces
(`create_updated_csv` then `write_csv`), the persisted rows' `id` values
are pairwise distinct, for any scanned per-page identifier maps and any
prior Store contents. -/
theorem c3_ids_pairwise_distinct (p : PageIds) (t : TagInfo) (e : ExistingMap) :
    ((sync_rows p t e).map (fun r => r.id)).Nodup := by
  unfold sync_rows write_csv_dedup filterActive
  apply dedupGo_nodup
  · simp
  · have hsub : List.Sublist
        (((create_updated_csv p t e).filter (fun r => r.status = "active")).map
          (fun r => r.id))
        ((create_updated_csv p t e).map (fun r => r.id)) :=
      (List.filter_sublist (create_updated_csv p t e)).map (fun r => r.id)
    exact List.Nodup.sublist hsub (createGo_nodup e t (flattenPages p) []).1
  · intro a ha
    cases ha

/-- Claim C4, confirmed: every persisted row's source text (`en`) is
non-empty after whitespace normalization — a candidate whose extracted
default-language content is empty or whitespace-only is skipped before
any use of the prior Store, so it is never persisted. -/
theorem c4_no_empty_source (p : PageIds) (t : TagInfo) (e : ExistingMap) :
    ∀ r ∈ sync_rows p t e, pyNormalize r.en ≠ "" := by
  intro r hr
  unfold sync_rows write_csv_dedup at hr
  rcases dedupGo_subset _ _ _ r hr with h | h
  · cases h
  · obtain ⟨_, hstrip, _⟩ :=
      createGo_facts e t (flattenPages p) [] r (List.mem_of_mem_filter h)
    exact pyNormalize_ne_empty _ hstrip

/-- Witness for C4 at a one-page scan whose only identifier wraps "Hi". -/
theorem c4_no_empty_source_witness : pyNormalize "Hi" ≠ "" :=
  c4_no_empty_source [("index", [("hero", ⟨some (.str "Hi"), none⟩)])] [] []
    (buildRow [] [] "index" "hero" ⟨some (.str "Hi"), none⟩) (by decide)

/-- Claim C5, confirmed: an identifier present in the prior Store but
removed from every default-language page template — so that no scanned
page records default-language (`en`) content for it, even if a stale
generated alternate-language page still yields captured text for it —
is absent from the produced Store: no row (and in particular no
tombstone) carries its id. -/
theorem c5_removed_identifier_absent (p : PageIds) (t : TagInfo) (e : ExistingMap)
    (i : String) (r0 : StoreRow) (_hprior : lookupA e i = some r0)
    (hgone : ∀ pg l, (pg, l) ∈ p → ∀ c, (i, c) ∈ l → c.en = none) :
    ∀ r ∈ sync_rows p t e, r.id ≠ i := by
  intro r hr he
  rcases dedupGo_subset _ _ _ r hr with h | h
  · cases h
  · have hmemc := List.mem_of_mem_filter h
    obtain ⟨_, hstrip, _⟩ := createGo_facts e t (flattenPages p) [] r hmemc
    obtain ⟨pg, i', c, hbuild, hmem⟩ := createGo_buildRow e t (flattenPages p) [] r hmemc
    have hid : i' = i := by
      rw [← he, hbuild]
      rfl
    subst hid
    unfold flattenPages at hmem
    rw [List.mem_flatMap] at hmem
    obtain ⟨pgl, hpgl, hmem2⟩ := hmem
    rw [List.mem_map] at hmem2
    obtain ⟨ic, hic, hh⟩ := hmem2
    simp only [Prod.mk.injEq] at hh
    have hicc : ic = (i', c) := by
      rw [Prod.ext_iff]
      exact ⟨hh.2.1, hh.2.2⟩
    rw [hicc] at hic
    have hen : c.en = none := hgone pgl.1 pgl.2 hpgl c hic
    have hren : r.en = "" := by
      rw [hbuild]
      show pyJoinVal ((c.en).getD (.str "")) = ""
      rw [hen]
      rfl
    rw [hren] at hstrip
    exact hstrip (by decide)

/-- Witness for C5: the prior Store holds `old`; the scan still captures
`old` from a stale generated alternate-language page (Spanish content
only, no `en` component) and captures `hero` from the default-language
template; the id of the surviving row is not `old`. -/
theorem c5_removed_identifier_absent_witness : ("hero" : String) ≠ "old" :=
  c5_removed_identifier_absent
    [("index", [("hero", ⟨some (.str "Hi"), none⟩), ("old", ⟨none, some (.str "Adios")⟩)])] []
    [("old", ⟨"index", "/index.html", "active", "p", "old", "Bye", "Adios"⟩)]
    "old" ⟨"index", "/index.html", "active", "p", "old", "Bye", "Adios"⟩
    (by decide)
    (by
      intro pg l hpl c hc
      simp only [List.mem_singleton] at hpl
      rw [Prod.mk.injEq] at hpl
      rw [hpl.2] at hc
      rcases List.mem_cons.mp hc with h1 | h1
      · rw [Prod.mk.injEq] at h1
        exact absurd h1.1 (by decide)
      · rw [List.mem_singleton, Prod.mk.injEq] at h1
        rw [h1.2])
    (buildRow [("old", ⟨"index", "/index.html", "active", "p", "old", "Bye", "Adios"⟩)]
      [] "index" "hero" ⟨some (.str "Hi"), none⟩)
    (by decide)

/-- Claim C6, confirmed: when the Reconciler builds the candidate row for
a scanned identifier, the target text comes from the existing Store row
whenever that row holds a non-empty stored translation, and only
otherwise from the text extracted from the generated alternate-language
page. -/
theorem c6_stored_translation_wins (existing : ExistingMap) (t : TagInfo)
    (pg i : String) (c : ScanContent) :
    (∀ er, lookupA existing i = some er → er.es ≠ "" →
      (buildRow existing t pg i c).es = er.es) ∧
    ((lookupA existing i = none ∨ ∃ er, lookupA existing i = some er ∧ er.es = "") →
      (buildRow existing t pg i c).es = pyJoinVal ((c.es).getD (.str ""))) := by
  constructor
  · intro er h1 h2
    show pickEs (lookupA existing i) (pyJoinVal ((c.es).getD (.str ""))) = er.es
    rw [h1]
    simp [pickEs, h2]
  · rintro (h | ⟨er, h1, h2⟩)
    · show pickEs (lookupA existing i) (pyJoinVal ((c.es).getD (.str ""))) =
        pyJoinVal ((c.es).getD (.str ""))
      rw [h]
      rfl
    · show pickEs (lookupA existing i) (pyJoinVal ((c.es).getD (.str ""))) =
        pyJoinVal ((c.es).getD (.str ""))
      rw [h1]
      simp [pickEs, h2]

/-- Witness for C6: an existing row with stored translation "Hola" beats
the re-scanned text "Scan". -/
theorem c6_stored_translation_wins_witness :
    (buildRow [("x", ⟨"index", "/index.html", "active", "h1", "x", "Hello", "Hola"⟩)]
        [] "index" "x" ⟨some (.str "Hi"), some (.str "Scan")⟩).es = "Hola" :=
  (c6_stored_translation_wins
      [("x", ⟨"index", "/index.html", "active", "h1", "x", "Hello", "Hola"⟩)]
      [] "index" "x" ⟨some (.str "Hi"), some (.str "Scan")⟩).1
    ⟨"index", "/index.html", "active", "h1", "x", "Hello", "Hola"⟩
    (by decide) (by decide)

/-! ## C7, C8: the Generator's substitution step -/

/-- Claim C7, as stated, is false: a row whose target text is empty is
not skipped when its source text is non-empty and differs — the
substitution proceeds (and blanks the matched text).  The code's skip
test is `not en_text or en_text == target_text`, i.e. on the source
text; on `{id: hero, source: "Hello", target: ""}` the document
`<h1 id="hero">Hello</h1>` becomes `<h1 id="hero"></h1>`. -/
theorem c7_counterexample :
    ¬ (∀ (html : List Char) (enMap : List (String × String)) (eid tgt : String),
        tgt = "" → processRow enMap html (eid, tgt) = html) := by
  intro h
  have h2 := h "<h1 id=\"hero\">Hello</h1>".data [("hero", "Hello")] "hero" "" rfl
  exact absurd h2 (by decide)

/-- Claim C7, corrected: the skip test is on the source text — a Store
row leaves the document unchanged whenever its source (en) text is
absent, empty, or equal to the target text; substitution is attempted
exactly for rows with a non-empty source text that differs from the
target, even when the target is empty. -/
theorem c7_skip_on_source (enMap : List (String × String)) (html : List Char)
    (eid tgt : String)
    (h : lookupA enMap eid = none ∨ lookupA enMap eid = some "" ∨
      lookupA enMap eid = some tgt) :
    processRow enMap html (eid, tgt) = html := by
  unfold processRow
  rcases h with h | h | h
  · rw [h]
  · rw [h]
    simp
  · rw [h]
    simp

/-- Witness for C7's corrected theorem: an identifier with no source-map
entry leaves the document untouched. -/
theorem c7_skip_on_source_witness :
    processRow [("a", "X")] "<p>X</p>".data ("b", "Y") = "<p>X</p>".data :=
  c7_skip_on_source [("a", "X")] "<p>X</p>".data "b" "Y" (.inl (by decide))

/-- Claim C8, confirmed: for each processed row, the identifier-anchored
pattern is substituted alone whenever it matches anywhere in the
document, and the bare text/attribute fallback runs only otherwise; on
the claim's concrete instance the generated alternate-language document
contains `<h1 id="hero-title">Captura el Momento</h1>`. -/
theorem c8_two_pass_substitution :
    (∀ (enMap : List (String × String)) (html : List Char) (eid tgt en : String),
      lookupA enMap eid = some en → ¬(en = "" ∨ en = tgt) →
      processRow enMap html (eid, tgt) =
        if reSearch (p1Matcher eid.data en.data tgt.data) html then
          reSub (p1Matcher eid.data en.data tgt.data) html
        else
          reSub (p3Matcher en.data tgt.data)
            (reSub (p2Matcher en.data tgt.data) html)) ∧
    containsL
      (translate_content
        "<html><body><h1 id=\"hero-title\">Capture the Moment</h1></body></html>".data
        "es"
        ⟨[("hero-title", "Capture the Moment")], [("hero-title", "Captura el Momento")]⟩)
      "<h1 id=\"hero-title\">Captura el Momento</h1>".data = true := by
  constructor
  · intro enMap html eid tgt en h1 h2
    unfold processRow
    rw [h1]
    show (if en = "" ∨ en = tgt then html
      else if reSearch (p1Matcher eid.data en.data tgt.data) html then
        reSub (p1Matcher eid.data en.data tgt.data) html
      else
        reSub (p3Matcher en.data tgt.data)
          (reSub (p2Matcher en.data tgt.data) html)) = _
    rw [if_neg h2]
  · decide

/-- Witness for C8's two-pass equation at a concrete row and document. -/
theorem c8_two_pass_substitution_witness :
    processRow [("hero", "Hello")] "<p id=\"hero\">Hello</p>".data ("hero", "Hola") =
      if reSearch (p1Matcher "hero".data "Hello".data "Hola".data)
          "<p id=\"hero\">Hello</p>".data then
        reSub (p1Matcher "hero".data "Hello".data "Hola".data)
          "<p id=\"hero\">Hello</p>".data
      else
        reSub (p3Matcher "Hello".data "Hola".data)
          (reSub (p2Matcher "Hello".data "Hola".data) "<p id=\"hero\">Hello</p>".data) :=
  c8_two_pass_substitution.1 [("hero", "Hello")] "<p id=\"hero\">Hello</p>".data
    "hero" "Hola" "Hello" (by decide) (by decide)

/-! ## C10: Generator abort behavior -/

theorem runLangPages_esJson (lang : String) (t : Meta) (csvT : TransT) (d : Bool) :
    ∀ (pages : List String) (fs : GenFS) (w : List (String × List Char)),
      (runLangPages lang t csvT d fs w pages).1.esJson = fs.esJson := by
  intro pages
  induction pages with
  | nil =>
    intro fs w
    rfl
  | cons pg rest ih =>
    intro fs w
    unfold runLangPages
    cases h : lookupA fs.pages (pg ++ ".html") with
    | none => exact ih fs w
    | some src => exact ih _ _

/-- Claim C10, as stated, is false for the subset where only the `es`
metadata table is missing: the run loads the CSV and the `en` table,
generates and writes every default-language page, and only then aborts
when loading `i18n/es.json` — so a write precedes the abort. -/
theorem c10_counterexample :
    ¬ (∀ fs : GenFS,
        (fs.csvFile = none ∨ fs.enJson = none ∨ fs.esJson = none) →
        (generate_main fs).writes = []) := by
  intro h
  have h2 := h
    ⟨some (serCsvFile []), some ⟨"S", "A", "C", "P", "PT", "D", "DA", "DC", "DP"⟩, none,
      [("index.html", "<p>x</p>".data)]⟩
    (.inr (.inr rfl))
  exact absurd h2 (by decide)

/-- The default-language pass writes exactly the pages whose source file
exists in the tree, in order, each to its root path: earlier writes of
the pass replace only already-processed pages (distinct target paths),
so later lookups see the original sources. -/
theorem runEnPages_writes (t : Meta) (csvT : TransT) :
    ∀ (pages : List String) (fs : GenFS) (w : List (String × List Char)),
      (pages.map (fun pg => pg ++ ".html")).Nodup →
      (runLangPages "en" t csvT true fs w pages).2 =
        w ++ pages.filterMap (fun pg =>
          (lookupA fs.pages (pg ++ ".html")).map
            (fun src => (pg ++ ".html", generate_page_html src pg "en" t csvT true))) := by
  intro pages
  induction pages with
  | nil =>
    intro fs w _
    simp [runLangPages]
  | cons pg rest ih =>
    intro fs w hnd
    rw [List.map_cons, List.nodup_cons] at hnd
    unfold runLangPages
    cases hlk : lookupA fs.pages (pg ++ ".html") with
    | none =>
      rw [List.filterMap_cons]
      simp only [hlk, Option.map_none']
      exact ih fs w hnd.2
    | some src =>
      have hcong : ∀ q ∈ rest,
          (lookupA (updA (pg ++ ".html") (generate_page_html src pg "en" t csvT true)
              fs.pages) (q ++ ".html")).map
            (fun src2 => (q ++ ".html", generate_page_html src2 q "en" t csvT true)) =
          (lookupA fs.pages (q ++ ".html")).map
            (fun src2 => (q ++ ".html", generate_page_html src2 q "en" t csvT true)) := by
        intro q hq
        rw [lookupA_updA_ne]
        intro hqe
        exact hnd.1 (by rw [← hqe]; exact List.mem_map_of_mem _ hq)
      rw [List.filterMap_cons]
      simp only [hlk, Option.map_some']
      calc (runLangPages "en" t csvT true
            { fs with pages := updA (pg ++ ".html") (generate_page_html src pg "en" t csvT true) fs.pages }
            (w ++ [(pg ++ ".html", generate_page_html src pg "en" t csvT true)]) rest).2
          = (w ++ [(pg ++ ".html", generate_page_html src pg "en" t csvT true)]) ++
              rest.filterMap (fun q =>
                (lookupA (updA (pg ++ ".html") (generate_page_html src pg "en" t csvT true)
                    fs.pages) (q ++ ".html")).map
                  (fun src2 => (q ++ ".html", generate_page_html src2 q "en" t csvT true))) :=
            ih _ _ hnd.2
        _ = (w ++ [(pg ++ ".html", generate_page_html src pg "en" t csvT true)]) ++
              rest.filterMap (fun q =>
                (lookupA fs.pages (q ++ ".html")).map
                  (fun src2 => (q ++ ".html", generate_page_html src2 q "en" t csvT true))) := by
            rw [List.filterMap_congr hcong]
        _ = w ++ ((pg ++ ".html", generate_page_html src pg "en" t csvT true) ::
              rest.filterMap (fun q =>
                (lookupA fs.pages (q ++ ".html")).map
                  (fun src2 => (q ++ ".html", generate_page_html src2 q "en" t csvT true)))) := by
            simp

/-- Claim C10, corrected: a missing Store CSV aborts with a descriptive
fatal error before any write, and so does a missing default-language
(`en`) metadata table; but when only the `es` table is missing, the run
first generates and writes every default-language page whose source
file exists — the write log is exactly those pages, in order, at their
root paths — and aborts with the descriptive fatal error only when it
reaches the `es` pass. -/
theorem c10_abort_behavior (fs : GenFS) :
    (fs.csvFile = none →
      (generate_main fs).writes = [] ∧
        (generate_main fs).outcome =
          .error "FileNotFoundError: Translation CSV not found: i18n/translations.csv") ∧
    (∀ csvT, load_translations_csv fs.csvFile = .ok csvT → fs.enJson = none →
      (generate_main fs).writes = [] ∧
        (generate_main fs).outcome =
          .error "FileNotFoundError: Translation file not found: i18n/en.json") ∧
    (∀ csvT tEn, load_translations_csv fs.csvFile = .ok csvT → fs.enJson = some tEn →
      fs.esJson = none →
      (generate_main fs).writes =
        genPagesList.filterMap (fun pg =>
          (lookupA fs.pages (pg ++ ".html")).map
            (fun src => (pg ++ ".html", generate_page_html src pg "en" tEn csvT true))) ∧
      (generate_main fs).outcome =
        .error "FileNotFoundError: Translation file not found: i18n/es.json") := by
  refine ⟨?_, ?_, ?_⟩
  · intro h
    have hload : load_translations_csv fs.csvFile =
        .error "FileNotFoundError: Translation CSV not found: i18n/translations.csv" := by
      rw [h]
      rfl
    simp only [generate_main, hload]
    exact ⟨trivial, trivial⟩
  · intro csvT hcsv hen
    have hloadEn : load_translations fs "en" =
        .error "FileNotFoundError: Translation file not found: i18n/en.json" := by
      unfold load_translations
      rw [if_pos rfl, hen]
      rfl
    simp only [generate_main, hcsv, hloadEn]
    exact ⟨trivial, trivial⟩
  · intro csvT tEn hcsv hen hes
    have hloadEn : load_translations fs "en" = .ok tEn := by
      unfold load_translations
      rw [if_pos rfl, hen]
    simp only [generate_main, hcsv, hloadEn]
    rcases hpr : runLangPages "en" tEn csvT true fs [] genPagesList with ⟨fs1, w1⟩
    have hfs1 : fs1.esJson = none := by
      have h2 := runLangPages_esJson "en" tEn csvT true genPagesList fs []
      rw [hpr] at h2
      rw [h2, hes]
    have hloadEs : load_translations fs1 "es" =
        .error "FileNotFoundError: Translation file not found: i18n/es.json" := by
      unfold load_translations
      rw [if_neg (by decide), hfs1]
      rfl
    have hw : w1 = genPagesList.filterMap (fun pg =>
        (lookupA fs.pages (pg ++ ".html")).map
          (fun src => (pg ++ ".html", generate_page_html src pg "en" tEn csvT true))) := by
      have h3 := runEnPages_writes tEn csvT genPagesList fs [] (by decide)
      rw [hpr] at h3
      simpa using h3
    simp only [hloadEs]
    exact ⟨hw, trivial⟩

/-- Witness for C10 at an `es`-table-only-missing tree with one source
page: the run writes the generated default-language `index.html` (the
only page whose source exists) and aborts with the descriptive error. -/
theorem c10_abort_behavior_witness :
    (generate_main ⟨some (serCsvFile []),
        some ⟨"S", "A", "C", "P", "PT", "D", "DA", "DC", "DP"⟩, none,
        [("index.html", "<p>x</p>".data)]⟩).writes =
      genPagesList.filterMap (fun pg =>
        (lookupA [("index.html", "<p>x</p>".data)] (pg ++ ".html")).map
          (fun src => (pg ++ ".html",
            generate_page_html src pg "en" ⟨"S", "A", "C", "P", "PT", "D", "DA", "DC", "DP"⟩
              ⟨[], []⟩ true))) ∧
    (generate_main ⟨some (serCsvFile []),
        some ⟨"S", "A", "C", "P", "PT", "D", "DA", "DC", "DP"⟩, none,
        [("index.html", "<p>x</p>".data)]⟩).outcome =
      .error "FileNotFoundError: Translation file not found: i18n/es.json" :=
  (c10_abort_behavior ⟨some (serCsvFile []),
      some ⟨"S", "A", "C", "P", "PT", "D", "DA", "DC", "DP"⟩, none,
      [("index.html", "<p>x</p>".data)]⟩).2.2
    ⟨[], []⟩ ⟨"S", "A", "C", "P", "PT", "D", "DA", "DC", "DP"⟩ (by decide) rfl rfl

/-! ## C1 part 1: the CSV writer/reader round-trip -/

theorem csvRunFold_eq : ∀ (input : List Char) (st : CsvSt),
    csvRunFold st input = (csvConsume st input).1 ++ csvFlush (csvConsume st input).2 := by
  intro input
  induction input with
  | nil =>
    intro st
    simp [csvRunFold, csvConsume]
  | cons c rest ih =>
    intro st
    simp only [csvRunFold, csvConsume, ih, List.append_assoc]

theorem csvConsume_append : ∀ (xs : List Char) (st : CsvSt) (ys : List Char),
    csvConsume st (xs ++ ys) =
      ((csvConsume st xs).1 ++ (csvConsume (csvConsume st xs).2 ys).1,
        (csvConsume (csvConsume st xs).2 ys).2) := by
  intro xs
  induction xs with
  | nil =>
    intro st ys
    simp [csvConsume]
  | cons c rest ih =>
    intro st ys
    have h1 : csvConsume st ((c :: rest) ++ ys) =
        ((csvStep st c).1 ++ (csvConsume (csvStep st c).2 (rest ++ ys)).1,
          (csvConsume (csvStep st c).2 (rest ++ ys)).2) := rfl
    have h2 : csvConsume st (c :: rest) =
        ((csvStep st c).1 ++ (csvConsume (csvStep st c).2 rest).1,
          (csvConsume (csvStep st c).2 rest).2) := rfl
    rw [h1, ih (csvStep st c).2 ys, h2]
    simp [List.append_assoc]

theorem csvConsume_unquoted : ∀ (d : List Char) (curF : List Char) (curR : List String),
    (∀ c ∈ d, c ≠ ',' ∧ c ≠ '"' ∧ c ≠ '\r' ∧ c ≠ '\n') →
    csvConsume ⟨.unquoted, curF, curR⟩ d = ([], ⟨.unquoted, curF ++ d, curR⟩) := by
  intro d
  induction d with
  | nil =>
    intro curF curR _
    simp [csvConsume]
  | cons c cs ih =>
    intro curF curR h
    obtain ⟨h1, h2, h3, h4⟩ := h c (List.mem_cons_self _ _)
    have hstep : csvStep ⟨.unquoted, curF, curR⟩ c = ([], ⟨.unquoted, curF ++ [c], curR⟩) := by
      unfold csvStep
      simp [h1, h3, h4]
    simp only [csvConsume, hstep]
    rw [ih (curF ++ [c]) curR (fun c' hc' => h c' (List.mem_cons_of_mem _ hc'))]
    simp

theorem csvConsume_quoted_esc : ∀ (d : List Char) (curF : List Char) (curR : List String),
    csvConsume ⟨.quoted, curF, curR⟩ (escQuotes d) = ([], ⟨.quoted, curF ++ d, curR⟩) := by
  intro d
  induction d with
  | nil =>
    intro curF curR
    simp [escQuotes, csvConsume]
  | cons c cs ih =>
    intro curF curR
    by_cases hc : c = '"'
    · subst hc
      rw [show escQuotes ('"' :: cs) = '"' :: '"' :: escQuotes cs from by simp [escQuotes]]
      have hs1 : csvStep ⟨.quoted, curF, curR⟩ '"' = ([], ⟨.afterQuote, curF, curR⟩) := by
        unfold csvStep
        simp
      have hs2 : csvStep ⟨.afterQuote, curF, curR⟩ '"' =
          ([], ⟨.quoted, curF ++ ['"'], curR⟩) := by
        unfold csvStep
        simp
      simp only [csvConsume, hs1, hs2]
      rw [ih (curF ++ ['"']) curR]
      simp
    · rw [show escQuotes (c :: cs) = c :: escQuotes cs from by simp [escQuotes, hc]]
      have hs1 : csvStep ⟨.quoted, curF, curR⟩ c = ([], ⟨.quoted, curF ++ [c], curR⟩) := by
        unfold csvStep
        simp [hc]
      simp only [csvConsume, hs1]
      rw [ih (curF ++ [c]) curR]
      simp

theorem needsQuote_false_safe (f : String) (hq : ¬needsQuote f) :
    ∀ c ∈ f.data, c ≠ ',' ∧ c ≠ '"' ∧ c ≠ '\r' ∧ c ≠ '\n' := by
  intro c hc
  refine ⟨?_, ?_, ?_, ?_⟩ <;> intro he <;> subst he <;> apply hq <;> unfold needsQuote <;>
    rw [List.any_eq_true] <;> exact ⟨_, hc, by decide⟩

theorem fieldConsume (f : String) (curR : List String) :
    ∃ st', csvConsume ⟨.fieldStart, [], curR⟩ (serField f) = ([], st') ∧
      csvStep st' ',' = ([], ⟨.fieldStart, [], curR ++ [f]⟩) ∧
      csvStep st' '\r' = ([curR ++ [f]], ⟨.sawCR, [], []⟩) := by
  by_cases hq : needsQuote f
  · refine ⟨⟨.afterQuote, f.data, curR⟩, ?_, ?_, ?_⟩
    · rw [show serField f = '"' :: (escQuotes f.data ++ ['"']) from by simp [serField, hq]]
      have hs1 : csvStep ⟨.fieldStart, [], curR⟩ '"' = ([], ⟨.quoted, [], curR⟩) := by
        unfold csvStep csvStepStart
        simp
      have h1 : csvConsume ⟨.fieldStart, [], curR⟩ ('"' :: (escQuotes f.data ++ ['"'])) =
          ((csvStep ⟨.fieldStart, [], curR⟩ '"').1 ++
            (csvConsume (csvStep ⟨.fieldStart, [], curR⟩ '"').2 (escQuotes f.data ++ ['"'])).1,
            (csvConsume (csvStep ⟨.fieldStart, [], curR⟩ '"').2 (escQuotes f.data ++ ['"'])).2) :=
        rfl
      rw [h1, hs1]
      rw [csvConsume_append (escQuotes f.data) ⟨.quoted, [], curR⟩ ['"']]
      rw [csvConsume_quoted_esc f.data [] curR]
      simp [csvConsume, csvStep]
    · unfold csvStep
      simp
    · unfold csvStep
      simp
  · have hsafe := needsQuote_false_safe f hq
    have hser : serField f = f.data := by simp [serField, hq]
    cases hd : f.data with
    | nil =>
      have hf : f = "" := by
        obtain ⟨d⟩ := f
        simp only [String.data] at hd
        simp [hd]
      refine ⟨⟨.fieldStart, [], curR⟩, ?_, ?_, ?_⟩
      · rw [hser, hd]
        simp [csvConsume]
      · unfold csvStep csvStepStart
        simp [hf]
      · unfold csvStep csvStepStart
        simp [hf]
    | cons c cs =>
      obtain ⟨h1, h2, h3, h4⟩ := hsafe c (by rw [hd]; exact List.mem_cons_self _ _)
      refine ⟨⟨.unquoted, f.data, curR⟩, ?_, ?_, ?_⟩
      · rw [hser, hd]
        have hs1 : csvStep ⟨.fieldStart, [], curR⟩ c = ([], ⟨.unquoted, [c], curR⟩) := by
          unfold csvStep csvStepStart
          simp [h1, h2, h3, h4]
        have he : csvConsume ⟨.fieldStart, [], curR⟩ (c :: cs) =
            ((csvStep ⟨.fieldStart, [], curR⟩ c).1 ++
              (csvConsume (csvStep ⟨.fieldStart, [], curR⟩ c).2 cs).1,
              (csvConsume (csvStep ⟨.fieldStart, [], curR⟩ c).2 cs).2) := rfl
        rw [he, hs1]
        rw [csvConsume_unquoted cs [c] curR
          (fun c' hc' => hsafe c' (by rw [hd]; exact List.mem_cons_of_mem _ hc'))]
        simp [hd]
      · unfold csvStep
        simp
      · unfold csvStep
        simp

theorem fieldConsumeRS (f : String) :
    ∃ st', csvConsume ⟨.recStart, [], []⟩ (serField f) = ([], st') ∧
      csvStep st' ',' = ([], ⟨.fieldStart, [], [f]⟩) := by
  by_cases hq : needsQuote f
  · refine ⟨⟨.afterQuote, f.data, []⟩, ?_, ?_⟩
    · rw [show serField f = '"' :: (escQuotes f.data ++ ['"']) from by simp [serField, hq]]
      have hs1 : csvStep ⟨.recStart, [], []⟩ '"' = ([], ⟨.quoted, [], []⟩) := by
        unfold csvStep csvStepStart
        simp
      have h1 : csvConsume ⟨.recStart, [], []⟩ ('"' :: (escQuotes f.data ++ ['"'])) =
          ((csvStep ⟨.recStart, [], []⟩ '"').1 ++
            (csvConsume (csvStep ⟨.recStart, [], []⟩ '"').2 (escQuotes f.data ++ ['"'])).1,
            (csvConsume (csvStep ⟨.recStart, [], []⟩ '"').2 (escQuotes f.data ++ ['"'])).2) :=
        rfl
      rw [h1, hs1]
      rw [csvConsume_append (escQuotes f.data) ⟨.quoted, [], []⟩ ['"']]
      rw [csvConsume_quoted_esc f.data [] []]
      simp [csvConsume, csvStep]
    · unfold csvStep
      simp
  · have hsafe := needsQuote_false_safe f hq
    have hser : serField f = f.data := by simp [serField, hq]
    cases hd : f.data with
    | nil =>
      have hf : f = "" := by
        obtain ⟨d⟩ := f
        simp only [String.data] at hd
        simp [hd]
      refine ⟨⟨.recStart, [], []⟩, ?_, ?_⟩
      · rw [hser, hd]
        simp [csvConsume]
      · unfold csvStep csvStepStart
        simp [hf]
    | cons c cs =>
      obtain ⟨h1, h2, h3, h4⟩ := hsafe c (by rw [hd]; exact List.mem_cons_self _ _)
      refine ⟨⟨.unquoted, f.data, []⟩, ?_, ?_⟩
      · rw [hser, hd]
        have hs1 : csvStep ⟨.recStart, [], []⟩ c = ([], ⟨.unquoted, [c], []⟩) := by
          unfold csvStep csvStepStart
          simp [h1, h2, h3, h4]
        have he : csvConsume ⟨.recStart, [], []⟩ (c :: cs) =
            ((csvStep ⟨.recStart, [], []⟩ c).1 ++
              (csvConsume (csvStep ⟨.recStart, [], []⟩ c).2 cs).1,
              (csvConsume (csvStep ⟨.recStart, [], []⟩ c).2 cs).2) := rfl
        rw [he, hs1]
        rw [csvConsume_unquoted cs [c] []
          (fun c' hc' => hsafe c' (by rw [hd]; exact List.mem_cons_of_mem _ hc'))]
        simp [hd]
      · unfold csvStep
        simp

theorem midConsume : ∀ (gs : List String) (g0 : String) (curR : List String),
    csvConsume ⟨.fieldStart, [], curR⟩ (joinFieldsSer (g0 :: gs) ++ ['\r', '\n']) =
      ([curR ++ (g0 :: gs)], ⟨.recStart, [], []⟩) := by
  intro gs
  induction gs with
  | nil =>
    intro g0 curR
    obtain ⟨st', hcons, _, hcr⟩ := fieldConsume g0 curR
    rw [show joinFieldsSer [g0] = serField g0 from rfl]
    rw [csvConsume_append (serField g0) _ ['\r', '\n'], hcons]
    have h1 : csvConsume st' ['\r', '\n'] =
        ((csvStep st' '\r').1 ++ ((csvStep (csvStep st' '\r').2 '\n').1 ++
          (csvConsume (csvStep (csvStep st' '\r').2 '\n').2 []).1,
          (csvConsume (csvStep (csvStep st' '\r').2 '\n').2 []).2).1,
          ((csvStep (csvStep st' '\r').2 '\n').1 ++
            (csvConsume (csvStep (csvStep st' '\r').2 '\n').2 []).1,
            (csvConsume (csvStep (csvStep st' '\r').2 '\n').2 []).2).2) := rfl
    rw [h1, hcr]
    simp [csvStep, csvConsume]
  | cons g1 gs' ih =>
    intro g0 curR
    obtain ⟨st', hcons, hcomma, _⟩ := fieldConsume g0 curR
    rw [show joinFieldsSer (g0 :: g1 :: gs') = serField g0 ++ ',' :: joinFieldsSer (g1 :: gs')
      from rfl]
    rw [show (serField g0 ++ ',' :: joinFieldsSer (g1 :: gs')) ++ ['\r', '\n'] =
      serField g0 ++ (',' :: (joinFieldsSer (g1 :: gs') ++ ['\r', '\n'])) from by
      simp]
    rw [csvConsume_append (serField g0) _ _, hcons]
    have h1 : csvConsume st' (',' :: (joinFieldsSer (g1 :: gs') ++ ['\r', '\n'])) =
        ((csvStep st' ',').1 ++
          (csvConsume (csvStep st' ',').2 (joinFieldsSer (g1 :: gs') ++ ['\r', '\n'])).1,
          (csvConsume (csvStep st' ',').2 (joinFieldsSer (g1 :: gs') ++ ['\r', '\n'])).2) := rfl
    rw [h1, hcomma]
    rw [show (([], (⟨.fieldStart, [], curR ++ [g0]⟩ : CsvSt)) : List (List String) × CsvSt).2 =
      (⟨.fieldStart, [], curR ++ [g0]⟩ : CsvSt) from rfl]
    rw [ih g1 (curR ++ [g0])]
    simp

theorem recordConsume (f1 f2 : String) (fs' : List String) :
    csvConsume ⟨.recStart, [], []⟩ (serRecord (f1 :: f2 :: fs')) =
      ([f1 :: f2 :: fs'], ⟨.recStart, [], []⟩) := by
  obtain ⟨st', hcons, hcomma⟩ := fieldConsumeRS f1
  rw [show serRecord (f1 :: f2 :: fs') =
    serField f1 ++ (',' :: (joinFieldsSer (f2 :: fs') ++ ['\r', '\n'])) from by
    unfold serRecord
    rw [show joinFieldsSer (f1 :: f2 :: fs') = serField f1 ++ ',' :: joinFieldsSer (f2 :: fs')
      from rfl]
    simp]
  rw [csvConsume_append (serField f1) _ _, hcons]
  have h1 : csvConsume st' (',' :: (joinFieldsSer (f2 :: fs') ++ ['\r', '\n'])) =
      ((csvStep st' ',').1 ++
        (csvConsume (csvStep st' ',').2 (joinFieldsSer (f2 :: fs') ++ ['\r', '\n'])).1,
        (csvConsume (csvStep st' ',').2 (joinFieldsSer (f2 :: fs') ++ ['\r', '\n'])).2) := rfl
  rw [h1, hcomma]
  rw [show (([], (⟨.fieldStart, [], [f1]⟩ : CsvSt)) : List (List String) × CsvSt).2 =
    (⟨.fieldStart, [], [f1]⟩ : CsvSt) from rfl]
  rw [midConsume fs' f2 [f1]]
  simp

theorem parse_serCsvFile (rows : List StoreRow) :
    parseRecords (serCsvFile rows) = fieldnames :: rows.map rowToFields := by
  have hrec : ∀ (rs : List StoreRow),
      csvConsume ⟨.recStart, [], []⟩
          ((rs.map (fun r => serRecord (rowToFields r))).flatten) =
        (rs.map rowToFields, ⟨.recStart, [], []⟩) := by
    intro rs
    induction rs with
    | nil => simp [csvConsume]
    | cons r rs' ih =>
      simp only [List.map_cons, List.flatten_cons]
      rw [csvConsume_append]
      rw [show serRecord (rowToFields r) = serRecord
        (r.page :: r.address :: [r.status, r.tag, r.id, r.en, r.es]) from rfl]
      rw [recordConsume]
      have hl : [r.page, r.address, r.status, r.tag, r.id, r.en, r.es] = rowToFields r := rfl
      simp [hl, ih]
  unfold parseRecords serCsvFile
  rw [csvRunFold_eq]
  rw [csvConsume_append]
  rw [show serRecord fieldnames = serRecord
    ("page" :: "address" :: ["status", "tag", "id", "en", "es"]) from rfl]
  rw [recordConsume]
  simp [hrec, csvFlush, fieldnames]

/-! ## C1 part 2: what `load_existing_csv` recovers from a written Store -/

theorem rowFromRecord_rowToFields (r : StoreRow) :
    rowFromRecord fieldnames (rowToFields r) = r := rfl

theorem loadGo_lookup_empty : ∀ (recs : List (List String)) (header : List String)
    (ex : ExistingMap), lookupA (loadExistingGo header ex recs) "" = lookupA ex "" := by
  intro recs
  induction recs with
  | nil =>
    intro header ex
    rfl
  | cons fields rest ih =>
    intro header ex
    simp only [loadExistingGo]
    by_cases h : (rowFromRecord header fields).id = ""
    · rw [if_pos h]
      exact ih header ex
    · rw [if_neg h]
      rw [ih header (updA (rowFromRecord header fields).id (rowFromRecord header fields) ex)]
      exact lookupA_updA_ne _ _ _ _ (Ne.symm h)

theorem loadGo_rows_lookup_none : ∀ (rows : List StoreRow) (ex : ExistingMap) (k : String),
    (∀ r ∈ rows, r.id = "" ∨ r.id ≠ k) →
    lookupA (loadExistingGo fieldnames ex (rows.map rowToFields)) k = lookupA ex k := by
  intro rows
  induction rows with
  | nil =>
    intro ex k _
    rfl
  | cons x rows' ih =>
    intro ex k h
    simp only [List.map_cons, loadExistingGo, rowFromRecord_rowToFields]
    by_cases hx : x.id = ""
    · rw [if_pos hx]
      exact ih ex k (fun r hr => h r (List.mem_cons_of_mem _ hr))
    · rw [if_neg hx]
      rw [ih (updA x.id x ex) k (fun r hr => h r (List.mem_cons_of_mem _ hr))]
      rcases h x (List.mem_cons_self _ _) with h1 | h1
      · exact absurd h1 hx
      · exact lookupA_updA_ne _ _ _ _ (Ne.symm h1)

theorem loadGo_rows_lookup_some : ∀ (rows : List StoreRow) (ex : ExistingMap) (r : StoreRow),
    r ∈ rows → r.id ≠ "" → ((rows.map (fun x => x.id)).Nodup) →
    lookupA (loadExistingGo fieldnames ex (rows.map rowToFields)) r.id = some r := by
  intro rows
  induction rows with
  | nil =>
    intro ex r hr
    cases hr
  | cons x rows' ih =>
    intro ex r hr hne hnd
    have hnd' : ((rows'.map (fun x => x.id)).Nodup) := by
      rw [List.map_cons, List.nodup_cons] at hnd
      exact hnd.2
    simp only [List.map_cons, loadExistingGo, rowFromRecord_rowToFields]
    rcases List.mem_cons.mp hr with hcase | hcase
    · subst hcase
      rw [if_neg hne]
      have hrest : ∀ r' ∈ rows', r'.id = "" ∨ r'.id ≠ r.id := by
        intro r' hr'
        by_cases h0 : r'.id = ""
        · exact .inl h0
        · refine .inr ?_
          intro he
          rw [List.map_cons, List.nodup_cons] at hnd
          exact hnd.1 (he ▸ List.mem_map_of_mem (fun x => x.id) hr')
      rw [loadGo_rows_lookup_none rows' (updA r.id r ex) r.id hrest]
      exact lookupA_updA_self _ _ _
    · by_cases hx : x.id = ""
      · rw [if_pos hx]
        exact ih ex r hcase hne hnd'
      · rw [if_neg hx]
        exact ih (updA x.id x ex) r hcase hne hnd'

theorem load_serCsvFile_lookup (rows : List StoreRow)
    (hnd : (rows.map (fun x => x.id)).Nodup) :
    (∀ r ∈ rows, r.id ≠ "" →
      lookupA (load_existing_csv (serCsvFile rows)) r.id = some r) ∧
    lookupA (load_existing_csv (serCsvFile rows)) "" = none ∧
    (∀ k, (∀ r ∈ rows, r.id ≠ k) →
      lookupA (load_existing_csv (serCsvFile rows)) k = none) := by
  have hload : load_existing_csv (serCsvFile rows) =
      loadExistingGo fieldnames [] (rows.map rowToFields) := by
    unfold load_existing_csv
    rw [parse_serCsvFile]
  refine ⟨?_, ?_, ?_⟩
  · intro r hr hne
    rw [hload]
    exact loadGo_rows_lookup_some rows [] r hr hne hnd
  · rw [hload]
    have h2 : ∀ header, loadExistingGo header ([] : ExistingMap) = loadExistingGo header [] :=
      fun _ => rfl
    rw [loadGo_lookup_empty (rows.map rowToFields) fieldnames []]
    rfl
  · intro k hk
    rw [hload]
    rw [loadGo_rows_lookup_none rows [] k (fun r hr => .inr (hk r hr))]
    rfl

theorem load_lookup_empty_key (s : List Char) :
    lookupA (load_existing_csv s) "" = none := by
  unfold load_existing_csv
  cases parseRecords s with
  | nil => rfl
  | cons header rest =>
    rw [loadGo_lookup_empty rest header []]
    rfl

/-! ## C1 part 3: the scan-determined skeleton of `create_updated_csv` -/

theorem createGo_rel (e e' : ExistingMap) (t : TagInfo) :
    ∀ (trips : List (String × String × ScanContent)) (proc : List String),
      List.Forall₂
        (fun a b =>
          a.id = b.id ∧ a.en = b.en ∧ a.status = b.status ∧ a.tag = b.tag ∧
          ∃ pg esS,
            a.es = pickEs (lookupA e a.id) esS ∧
            b.es = pickEs (lookupA e' a.id) esS ∧
            a.page = pickPage (lookupA e a.id) pg ∧
            b.page = pickPage (lookupA e' a.id) pg ∧
            a.address = get_page_address a.page "en" ∧
            b.address = get_page_address b.page "en")
        (createGo e t trips proc) (createGo e' t trips proc) := by
  intro trips
  induction trips with
  | nil =>
    intro proc
    exact List.Forall₂.nil
  | cons tr rest ih =>
    obtain ⟨pg, i, c⟩ := tr
    intro proc
    simp only [createGo]
    by_cases hc : proc.contains i
    · simp only [if_pos hc]
      exact ih proc
    · simp only [if_neg hc]
      by_cases hs : pyStrip (pyJoinVal ((c.en).getD (.str ""))) = ""
      · simp only [if_pos hs]
        exact ih (i :: proc)
      · simp only [if_neg hs]
        refine List.Forall₂.cons ?_ (ih (i :: proc))
        refine ⟨rfl, rfl, rfl, rfl, pg, pyJoinVal ((c.es).getD (.str "")), ?_, ?_, ?_, ?_, ?_, ?_⟩
        · rfl
        · rfl
        · rfl
        · rfl
        · rfl
        · rfl

theorem pickEs_stored (o : Option StoreRow) (s : String) (a : StoreRow)
    (h : a.es = pickEs o s) : pickEs (some a) s = a.es := by
  show (if a.es ≠ "" then a.es else s) = a.es
  by_cases he : a.es = ""
  · rw [if_neg (by simp [he])]
    cases o with
    | none =>
      have h2 : a.es = s := h
      exact h2.symm
    | some er =>
      have h2 : a.es = if er.es ≠ "" then er.es else s := h
      by_cases her : er.es = ""
      · rw [if_neg (by simp [her])] at h2
        exact h2.symm
      · rw [if_pos her] at h2
        exact absurd (h2.symm.trans he) her
  · rw [if_pos he]

theorem pickPage_stored (o : Option StoreRow) (s : String) (a : StoreRow)
    (h : a.page = pickPage o s) : pickPage (some a) s = a.page := by
  show (if a.page ≠ "" then a.page else s) = a.page
  by_cases he : a.page = ""
  · rw [if_neg (by simp [he])]
    cases o with
    | none =>
      have h2 : a.page = s := h
      exact h2.symm
    | some er =>
      have h2 : a.page = if er.page ≠ "" then er.page else s := h
      by_cases her : er.page = ""
      · rw [if_neg (by simp [her])] at h2
        exact h2.symm
      · rw [if_pos her] at h2
        exact absurd (h2.symm.trans he) her
  · rw [if_pos he]

theorem pickEs_none_of_lookup (s : String) : pickEs none s = s := rfl

/-! ## C1 part 4: the dedup loop only inspects source text and id -/

theorem lookupA_map_snd (φ : StoreRow → StoreRow) :
    ∀ (seen : List (String × StoreRow)) (k : String),
      lookupA (seen.map (fun pr => (pr.1, φ pr.2))) k = (lookupA seen k).map φ := by
  intro seen
  induction seen with
  | nil =>
    intro k
    rfl
  | cons p rest ih =>
    intro k
    obtain ⟨a, b⟩ := p
    simp only [List.map_cons]
    rw [lookupA_cons, lookupA_cons]
    by_cases h : a = k
    · simp [h]
    · simp [h, ih]

theorem updA_map_snd (φ : StoreRow → StoreRow) :
    ∀ (seen : List (String × StoreRow)) (k : String) (v : StoreRow),
      updA k (φ v) (seen.map (fun pr => (pr.1, φ pr.2))) =
        (updA k v seen).map (fun pr => (pr.1, φ pr.2)) := by
  intro seen
  induction seen with
  | nil =>
    intro k v
    rfl
  | cons p rest ih =>
    intro k v
    obtain ⟨a, b⟩ := p
    by_cases h : a = k
    · simp [updA, h]
    · simp [updA, h, ih]

theorem filter_map_id (φ : StoreRow → StoreRow) (hφid : ∀ r, (φ r).id = r.id)
    (erid : String) : ∀ (acc : List StoreRow),
      (acc.map φ).filter (fun r => r.id ≠ erid) =
        (acc.filter (fun r => r.id ≠ erid)).map φ := by
  intro acc
  rw [List.filter_map]
  congr 1
  apply List.filter_congr
  intro x _
  simp [Function.comp, hφid]

theorem dedupGo_map_comm (φ : StoreRow → StoreRow)
    (hφ : ∀ r, (φ r).en = r.en ∧ (φ r).id = r.id) :
    ∀ (rows : List StoreRow) (seen : List (String × StoreRow)) (acc : List StoreRow),
      dedupGo (seen.map (fun pr => (pr.1, φ pr.2))) (acc.map φ) (rows.map φ) =
        (dedupGo seen acc rows).map φ := by
  intro rows
  induction rows with
  | nil =>
    intro seen acc
    rfl
  | cons row rest ih =>
    intro seen acc
    simp only [List.map_cons, dedupGo]
    rw [(hφ row).1, lookupA_map_snd φ seen row.en]
    cases hl : lookupA seen row.en with
    | none =>
      simp only [Option.map_none']
      rw [updA_map_snd φ seen row.en row]
      rw [show acc.map φ ++ [φ row] = (acc ++ [row]).map φ from by simp]
      exact ih (updA row.en row seen) (acc ++ [row])
    | some er =>
      simp only [Option.map_some']
      rw [(hφ row).2, (hφ er).2]
      by_cases hsc : id_score row.id > id_score er.id
      · simp only [if_pos hsc]
        rw [updA_map_snd φ seen row.en row,
          filter_map_id φ (fun r => (hφ r).2) er.id acc]
        rw [show (acc.filter (fun r => r.id ≠ er.id)).map φ ++ [φ row] =
          ((acc.filter (fun r => r.id ≠ er.id)) ++ [row]).map φ from by simp]
        exact ih (updA row.en row seen) ((acc.filter (fun r => r.id ≠ er.id)) ++ [row])
      · simp only [if_neg hsc]
        exact ih seen acc

theorem pairFn_en_id (A A2 : List StoreRow)
    (hzip : ∀ pr ∈ A.zip A2, pr.1.en = pr.2.en ∧ pr.1.id = pr.2.id) :
    ∀ r, (pairFn A A2 r).en = r.en ∧ (pairFn A A2 r).id = r.id := by
  intro r
  unfold pairFn
  cases hf : (A.zip A2).find? (fun pr => pr.1 = r) with
  | none => simp
  | some pr =>
    simp only [Option.map_some', Option.getD_some]
    have h1 : pr.1 = r := by
      have h2 := List.find?_some hf
      simpa using h2
    have h2 := hzip pr (List.mem_of_find?_eq_some hf)
    rw [← h1]
    exact ⟨h2.1.symm, h2.2.symm⟩

theorem map_pairFn : ∀ (A A2 : List StoreRow),
    A.length = A2.length → ((A.map (fun x => x.id)).Nodup) →
    (∀ pr ∈ A.zip A2, pr.1.id = pr.2.id) →
    A.map (pairFn A A2) = A2 := by
  intro A
  induction A with
  | nil =>
    intro A2 hlen _ _
    cases A2 with
    | nil => rfl
    | cons b B' => simp at hlen
  | cons a A' ih =>
    intro A2 hlen hnd hzip
    cases A2 with
    | nil => simp at hlen
    | cons b B' =>
      simp only [List.map_cons]
      have hhead : pairFn (a :: A') (b :: B') a = b := by
        unfold pairFn
        rw [show (a :: A').zip (b :: B') = (a, b) :: A'.zip B' from rfl]
        rw [List.find?_cons_of_pos _ (by simp)]
        simp
      have htail : ∀ x ∈ A', pairFn (a :: A') (b :: B') x = pairFn A' B' x := by
        intro x hx
        unfold pairFn
        rw [show (a :: A').zip (b :: B') = (a, b) :: A'.zip B' from rfl]
        rw [List.find?_cons_of_neg _ ?_]
        simp only [decide_eq_true_eq]
        intro he
        rw [List.map_cons, List.nodup_cons] at hnd
        exact hnd.1 (he ▸ List.mem_map_of_mem (fun x => x.id) hx)
      rw [hhead]
      rw [List.map_congr_left htail]
      rw [ih B' (by simpa using hlen)
        (by rw [List.map_cons, List.nodup_cons] at hnd; exact hnd.2)
        (fun pr hpr => hzip pr (List.mem_cons_of_mem _ hpr))]

theorem dedup_stable (A A2 : List StoreRow)
    (hnd : (A.map (fun x => x.id)).Nodup)
    (hlen : A.length = A2.length)
    (hzip_en_id : ∀ pr ∈ A.zip A2, pr.1.en = pr.2.en ∧ pr.1.id = pr.2.id)
    (hkept : ∀ pr ∈ A.zip A2,
      pr.1.id ∈ (dedupGo [] [] A).map (fun x => x.id) → pr.2 = pr.1) :
    dedupGo [] [] A2 = dedupGo [] [] A := by
  have hφ := pairFn_en_id A A2 hzip_en_id
  have hmap : A.map (pairFn A A2) = A2 :=
    map_pairFn A A2 hlen hnd (fun pr hpr => (hzip_en_id pr hpr).2)
  rw [← hmap]
  have hcomm := dedupGo_map_comm (pairFn A A2) hφ A [] []
  simp only [List.map_nil] at hcomm
  rw [hcomm]
  have hfix : ∀ r ∈ dedupGo [] [] A, pairFn A A2 r = r := by
    intro r hr
    have hrA : r ∈ A := by
      rcases dedupGo_subset A [] [] r hr with h | h
      · cases h
      · exact h
    obtain ⟨j, hj, hje⟩ := List.mem_iff_getElem.mp hrA
    have hj2 : j < A2.length := hlen ▸ hj
    have hjz : j < (A.zip A2).length := by
      rw [List.length_zip]
      omega
    unfold pairFn
    cases hf : (A.zip A2).find? (fun pr => pr.1 = r) with
    | none =>
      rw [List.find?_eq_none] at hf
      have hmem : (A.zip A2).get ⟨j, hjz⟩ ∈ A.zip A2 := List.get_mem _ _ _
      have hfst : ((A.zip A2).get ⟨j, hjz⟩).1 = r := by
        rw [List.get_eq_getElem, List.getElem_zip]
        exact hje
      have hdec : (fun pr => decide (pr.1 = r)) ((A.zip A2).get ⟨j, hjz⟩) = true := by
        show decide (((A.zip A2).get ⟨j, hjz⟩).1 = r) = true
        rw [hfst]
        simp
      exact absurd hdec (by simpa using hf _ hmem)
    | some pr =>
      simp only [Option.map_some', Option.getD_some]
      have h1 : pr.1 = r := by
        have h2 := List.find?_some hf
        simpa using h2
      have h2 := hkept pr (List.mem_of_find?_eq_some hf)
        (by rw [h1]; exact List.mem_map_of_mem _ hr)
      rw [h2, h1]
  calc (dedupGo [] [] A).map (pairFn A A2)
      = (dedupGo [] [] A).map id := List.map_congr_left (fun a ha => hfix a ha)
    _ = dedupGo [] [] A := List.map_id _

/-- Claim C1, confirmed: running the Extractor/Reconciler pipeline twice
with the HTML pages (hence the scan results `p`, `t`) and all other
inputs unchanged produces a byte-identical Store CSV: the file written
by a second run, whose prior Store is the file written by the first run
(itself loaded from an arbitrary prior file `s0`), equals the first
run's file.  The scan is a pure function of the page tree, so unchanged
pages give both runs the same `p` and `t`. -/
theorem c1_sync_idempotent (p : PageIds) (t : TagInfo) (s0 : List Char) :
    sync_output_file p t
        (load_existing_csv (sync_output_file p t (load_existing_csv s0))) =
      sync_output_file p t (load_existing_csv s0) := by
  set e := load_existing_csv s0 with he
  set A := create_updated_csv p t e with hA
  set D1 := dedupGo [] [] A with hD1
  set file1 := serCsvFile D1 with hfile1def
  set E1 := load_existing_csv file1 with hE1
  set A2 := create_updated_csv p t E1 with hA2
  have hnodupA : (A.map (fun x => x.id)).Nodup :=
    (createGo_nodup e t (flattenPages p) []).1
  have hfilterA : filterActive A = A := by
    unfold filterActive
    rw [List.filter_eq_self]
    intro r hr
    have hr2 : r ∈ create_updated_csv p t e := hA ▸ hr
    have h2 := (createGo_facts e t (flattenPages p) [] r hr2).1
    simp [h2]
  have hsync_e : sync_output_file p t e = file1 := by
    rw [hfile1def, hD1]
    unfold sync_output_file sync_rows write_csv_dedup
    rw [← hA, hfilterA]
  have hD1nodup : (D1.map (fun x => x.id)).Nodup := by
    rw [hD1]
    exact dedupGo_nodup A [] [] (by simp) hnodupA (by intro a ha; cases ha)
  have hD1sub : ∀ r ∈ D1, r ∈ A := by
    intro r hr
    rcases dedupGo_subset A [] [] r (hD1 ▸ hr) with h | h
    · cases h
    · exact h
  obtain ⟨hE1some, hE1empty, _⟩ := load_serCsvFile_lookup D1 hD1nodup
  have hrel := createGo_rel e E1 t (flattenPages p) []
  have hlen : A.length = A2.length := List.Forall₂.length_eq hrel
  have hzipR : ∀ pr ∈ A.zip A2,
      pr.1.id = pr.2.id ∧ pr.1.en = pr.2.en ∧ pr.1.status = pr.2.status ∧
      pr.1.tag = pr.2.tag ∧
      ∃ pg esS,
        pr.1.es = pickEs (lookupA e pr.1.id) esS ∧
        pr.2.es = pickEs (lookupA E1 pr.1.id) esS ∧
        pr.1.page = pickPage (lookupA e pr.1.id) pg ∧
        pr.2.page = pickPage (lookupA E1 pr.1.id) pg ∧
        pr.1.address = get_page_address pr.1.page "en" ∧
        pr.2.address = get_page_address pr.2.page "en" :=
    fun pr hpr => (List.forall₂_iff_zip.mp hrel).2 hpr
  have hkept : ∀ pr ∈ A.zip A2, pr.1.id ∈ D1.map (fun x => x.id) → pr.2 = pr.1 := by
    intro pr hpr hid
    obtain ⟨hid_eq, hen_eq, hst_eq, htg_eq, pg, esS, ha_es, hb_es, ha_pg, hb_pg,
      ha_ad, hb_ad⟩ := hzipR pr hpr
    have hpr1A : pr.1 ∈ A := (List.of_mem_zip hpr).1
    by_cases hid0 : pr.1.id = ""
    · have hnone_e : lookupA e pr.1.id = none := by
        rw [hid0, he]
        exact load_lookup_empty_key s0
      have hnone_E1 : lookupA E1 pr.1.id = none := by
        rw [hid0]
        exact hE1empty
      rw [hnone_e] at ha_es ha_pg
      rw [hnone_E1] at hb_es hb_pg
      have ha2es : pr.1.es = esS := ha_es
      have hb2es : pr.2.es = esS := hb_es
      have ha2pg : pr.1.page = pg := ha_pg
      have hb2pg : pr.2.page = pg := hb_pg
      apply StoreRow.ext
      · exact hb2pg.trans ha2pg.symm
      · rw [hb_ad, hb2pg.trans ha2pg.symm, ← ha_ad]
      · exact hst_eq.symm
      · exact htg_eq.symm
      · exact hid_eq.symm
      · exact hen_eq.symm
      · exact hb2es.trans ha2es.symm
    · obtain ⟨rD, hrD1, hrDid⟩ := List.mem_map.mp hid
      have hrDA : rD ∈ A := hD1sub rD hrD1
      have hrDeq : rD = pr.1 := List.inj_on_of_nodup_map hnodupA hrDA hpr1A hrDid
      have hsome : lookupA E1 pr.1.id = some pr.1 := by
        have h2 := hE1some rD hrD1 (by rw [hrDid]; exact hid0)
        rw [hrDid, hrDeq] at h2
        exact h2
      rw [hsome] at hb_es hb_pg
      have hb2es : pr.2.es = pr.1.es := by
        rw [hb_es]
        exact pickEs_stored (lookupA e pr.1.id) esS pr.1 ha_es
      have hb2pg : pr.2.page = pr.1.page := by
        rw [hb_pg]
        exact pickPage_stored (lookupA e pr.1.id) pg pr.1 ha_pg
      apply StoreRow.ext
      · exact hb2pg
      · rw [hb_ad, hb2pg, ← ha_ad]
      · exact hst_eq.symm
      · exact htg_eq.symm
      · exact hid_eq.symm
      · exact hen_eq.symm
      · exact hb2es
  have hstable : dedupGo [] [] A2 = D1 := by
    rw [hD1]
    exact dedup_stable A A2 hnodupA hlen
      (fun pr hpr => ⟨(hzipR pr hpr).2.1, (hzipR pr hpr).1⟩)
      (fun pr hpr hin => hkept pr hpr (hD1 ▸ hin))
  have hfilterA2 : filterActive A2 = A2 := by
    unfold filterActive
    rw [List.filter_eq_self]
    intro r hr
    have hr2 : r ∈ create_updated_csv p t E1 := hA2 ▸ hr
    have h2 := (createGo_facts E1 t (flattenPages p) [] r hr2).1
    simp [h2]
  rw [hsync_e, ← hE1]
  show sync_output_file p t E1 = file1
  calc sync_output_file p t E1
      = serCsvFile (dedupGo [] [] A2) := by
        unfold sync_output_file sync_rows write_csv_dedup
        rw [← hA2, hfilterA2]
    _ = serCsvFile D1 := by rw [hstable]
    _ = file1 := by rw [hfile1def]

end LenkoStudio
